import Mathlib

/-!
# Verification of the Excalidraw diagram generator (`excalidraw_agent.py`)

A shallow embedding of the diagram layout-and-serialization core of the
repository: the `ExcalidrawAgent` class with its id allocator, shape/text
factories, arrow binder, the three layout methods and the document assembler.

Modelling conventions:
* Python numbers (ints and floats) are modelled as exact rationals `ℚ`.
  Every numeric fact settled here involves only arithmetic that is exact in
  IEEE floating point as well (small integers, halving), so nothing is lost.
* Python `None` entries in `self.elements` (which `add_element` happily
  appends) are modelled by `Option Element`, with `none` standing for `None`.
* Python exceptions (`ValueError`, `TypeError` from subscripting `None`,
  `ZeroDivisionError`) are modelled by an explicit `PyError` value; an
  operation that can raise returns `Except PyError α × AgentState`, the
  state component being the state at the point the exception was raised.
* Python f-string interpolation of the integer counter is modelled by the
  executable decimal renderer `natStr` (fuel-based so that the kernel can
  evaluate it), which agrees with `str(n)`.
-/

namespace Excalidraw

/-- Decimal digits of `n`, most significant first, as characters; `fuel`
bounds the recursion so the definition is structural.  Models Python's
`str` on a non-negative integer (for `fuel > n`). -/
def natStrCore : Nat → Nat → List Char
  | 0, _ => []
  | fuel + 1, n =>
    if n < 10 then [Nat.digitChar n]
    else natStrCore fuel (n / 10) ++ [Nat.digitChar (n % 10)]

/-- Decimal rendering of a natural number, modelling Python `str(n)`. -/
def natStr (n : Nat) : String := ⟨natStrCore (n + 1) n⟩

/-- The id format of `_generate_id`: Python `f"{prefix}-{counter}"`. -/
def mkId (pfx : String) (n : Nat) : String := pfx ++ "-" ++ natStr n

/-! ## Data model

`Element` embeds the element dicts built by `_create_base_element` and
specialized by `create_text_element` / `create_rectangle` / `create_ellipse`
/ `create_arrow`.  The base dict never carries the text- or arrow-specific
keys; those are `none` until the corresponding `update` adds them. -/

/-- An entry of a `boundElements` list: `{"id": ..., "type": ...}`. -/
structure BoundElement where
  id : String
  type : String
deriving DecidableEq, Repr

/-- An arrow's `startBinding`/`endBinding` record. -/
structure Binding where
  elementId : String
  focus : ℚ
  gap : ℚ
deriving DecidableEq, Repr

/-- The `Position` dataclass. -/
structure Position where
  x : ℚ
  y : ℚ
deriving DecidableEq, Repr

/-- One element dict.  Keys that only text elements have (`text` …
`lineHeight`) and keys that only arrows have (`startBinding` … `points`)
are wrapped in an outer `Option`: `none` means the key is absent. -/
structure Element where
  id : String
  type : String
  x : ℚ
  y : ℚ
  width : ℚ
  height : ℚ
  angle : ℚ
  strokeColor : String
  backgroundColor : String
  fillStyle : String
  strokeWidth : ℚ
  strokeStyle : String
  roughness : ℚ
  opacity : ℚ
  groupIds : List String
  frameId : Option String
  index : String
  roundness : Option Nat
  seed : Nat
  version : Nat
  versionNonce : Nat
  isDeleted : Bool
  boundElements : List BoundElement
  updated : Nat
  link : Option String
  locked : Bool
  text : Option String
  fontSize : Option ℚ
  fontFamily : Option Nat
  textAlign : Option String
  verticalAlign : Option String
  containerId : Option (Option String)
  originalText : Option String
  autoResize : Option Bool
  lineHeight : Option ℚ
  startBinding : Option Binding
  endBinding : Option Binding
  lastCommittedPoint : Option (Option Position)
  startArrowhead : Option (Option String)
  endArrowhead : Option (Option String)
  points : Option (List (ℚ × ℚ))
deriving DecidableEq, Repr

/-- Python exceptions the diagram core can raise. -/
inductive PyError where
  /-- `raise ValueError(msg)`. -/
  | valueError (msg : String)
  /-- Subscripting `None` (`element["id"]` with `element = None`). -/
  | typeError
  /-- Division (or modulo) by zero. -/
  | zeroDivisionError
deriving DecidableEq, Repr

/-- The mutable state of an `ExcalidrawAgent` instance.  `elements` is
`self.elements`; entries are `Option Element` because `add_element`
appends whatever it is given, including Python `None`. -/
structure AgentState where
  elements : List (Option Element)
  element_counter : Nat
  group_counter : Nat
  current_group_id : Option String
deriving DecidableEq, Repr

/-- `ExcalidrawAgent.__init__`. -/
def initAgent : AgentState :=
  { elements := [], element_counter := 0, group_counter := 0,
    current_group_id := none }

/-- `self.default_spacing_x` (set in `__init__`, never reassigned). -/
def default_spacing_x : ℚ := 150

/-- `self.default_spacing_y`. -/
def default_spacing_y : ℚ := 100

/-- `self.default_text_size`. -/
def default_text_size : ℚ := 16

/-- `self.default_element_width`. -/
def default_element_width : ℚ := 120

/-- `self.default_element_height`. -/
def default_element_height : ℚ := 60

/-- `_generate_id`: increments the counter and renders
`f"{prefix}-{self.element_counter}"`. -/
def _generate_id (s : AgentState) (pfx : String) : String × AgentState :=
  let c := s.element_counter + 1
  (mkId pfx c, { s with element_counter := c })

/-- `_generate_group_id`. -/
def _generate_group_id (s : AgentState) : String × AgentState :=
  let c := s.group_counter + 1
  (mkId "group" c, { s with group_counter := c })

/-- `_create_base_element`.  When `element_id` is `None` a fresh
`"element-..."` id is generated (bumping the counter); the remaining
fields read the counter value current after that. -/
def _create_base_element (s : AgentState) (ty : String) (x y w h : ℚ)
    (element_id : Option String) : Element × AgentState :=
  let p := match element_id with
    | none => _generate_id s "element"
    | some i => (i, s)
  let eid := p.1
  let s := p.2
  ({ id := eid
     type := ty
     x := x, y := y, width := w, height := h
     angle := 0
     strokeColor := "#1e1e1e"
     backgroundColor := "transparent"
     fillStyle := "solid"
     strokeWidth := 2
     strokeStyle := "solid"
     roughness := 1
     opacity := 100
     groupIds := match s.current_group_id with
       | some g => if g = "" then [] else [g]
       | none => []
     frameId := none
     index := "a" ++ natStr s.element_counter
     roundness := none
     seed := s.element_counter
     version := 1
     versionNonce := s.element_counter * 1000
     isDeleted := false
     boundElements := []
     updated := 1757460000000 + s.element_counter
     link := none
     locked := false
     text := none, fontSize := none, fontFamily := none, textAlign := none
     verticalAlign := none, containerId := none, originalText := none
     autoResize := none, lineHeight := none
     startBinding := none, endBinding := none, lastCommittedPoint := none
     startArrowhead := none, endArrowhead := none, points := none }, s)

/-- `create_text_element`.  Width/height are the `len(text) * fontSize*0.6`
/ `fontSize*1.2` estimates; alignment depends on the truthiness of
`container_id` (Python: `None` and `""` are falsy). -/
def create_text_element (s : AgentState) (text : String) (x y : ℚ)
    (container_id : Option String) (font_size : Option ℚ) :
    Element × AgentState :=
  let fs := font_size.getD default_text_size
  let char_width := fs * (6/10)
  let text_width := (text.length : ℚ) * char_width
  let text_height := fs * (12/10)
  let p := _create_base_element s "text" x y text_width text_height none
  let containerTruthy := match container_id with
    | none => false
    | some c => decide (c ≠ "")
  ({ p.1 with
      text := some text
      fontSize := some fs
      fontFamily := some 5
      textAlign := some (if containerTruthy then "center" else "left")
      verticalAlign := some (if containerTruthy then "middle" else "top")
      containerId := some container_id
      originalText := some text
      autoResize := some true
      lineHeight := some (5/4) }, p.2)

/-- `create_rectangle`.  Returns `(rect, text?)`; a text element is created
only when `text` is truthy (non-`None`, non-empty), in which case the
text's `containerId` is the rectangle's id and the rectangle gains a
`{"type": "text", "id": ...}` bound-element entry. -/
def create_rectangle (s : AgentState) (x y : ℚ) (width height : Option ℚ)
    (text : Option String) (background_color : Option String) :
    (Element × Option Element) × AgentState :=
  let w := width.getD default_element_width
  let h := height.getD default_element_height
  let bg := background_color.getD "transparent"
  let pid := _generate_id s "rect"
  let rect_id := pid.1
  let p := _create_base_element pid.2 "rectangle" x y w h (some rect_id)
  let rect := { p.1 with backgroundColor := bg, roundness := some 3 }
  match text with
  | some t =>
    if t ≠ "" then
      let text_x := x + w / 2 - (t.length : ℚ) * default_text_size * (3/10)
      let text_y := y + h / 2 - default_text_size / 2
      let q := create_text_element p.2 t text_x text_y (some rect_id) none
      let rect := { rect with
        boundElements := rect.boundElements ++ [⟨q.1.id, "text"⟩] }
      ((rect, some q.1), q.2)
    else ((rect, none), p.2)
  | none => ((rect, none), p.2)

/-- `create_ellipse`; identical to `create_rectangle` except for the
element type, the id prefix and the roundness tag. -/
def create_ellipse (s : AgentState) (x y : ℚ) (width height : Option ℚ)
    (text : Option String) (background_color : Option String) :
    (Element × Option Element) × AgentState :=
  let w := width.getD default_element_width
  let h := height.getD default_element_height
  let bg := background_color.getD "transparent"
  let pid := _generate_id s "ellipse"
  let ellipse_id := pid.1
  let p := _create_base_element pid.2 "ellipse" x y w h (some ellipse_id)
  let ell := { p.1 with backgroundColor := bg, roundness := some 2 }
  match text with
  | some t =>
    if t ≠ "" then
      let text_x := x + w / 2 - (t.length : ℚ) * default_text_size * (3/10)
      let text_y := y + h / 2 - default_text_size / 2
      let q := create_text_element p.2 t text_x text_y (some ellipse_id) none
      let ell := { ell with
        boundElements := ell.boundElements ++ [⟨q.1.id, "text"⟩] }
      ((ell, some q.1), q.2)
    else ((ell, none), p.2)
  | none => ((ell, none), p.2)

/-- `add_element`: unconditionally appends (also when given `None`). -/
def add_element (s : AgentState) (e : Option Element) : AgentState :=
  { s with elements := s.elements ++ [e] }

/-- `start_group`. -/
def start_group (s : AgentState) (group_name : Option String) :
    String × AgentState :=
  let p := _generate_group_id s
  let gid := match group_name with
    | some gn => if gn ≠ "" then gn ++ "-" ++ p.1 else p.1
    | none => p.1
  (gid, { p.2 with current_group_id := some gid })

/-- `end_group`. -/
def end_group (s : AgentState) : AgentState :=
  { s with current_group_id := none }

/-! ## Arrow binder

`create_arrow` scans `self.elements` with
`if element["id"] == start_id: start_element = element
 elif element["id"] == end_id: end_element = element`.
The scan subscripts every entry, so a `None` entry raises `TypeError`;
later matches overwrite earlier ones; an entry equal to the start id never
reaches the `elif`, so when the two ids coincide the end reference stays
`None`. -/

/-- The lookup loop of `create_arrow`, with the running values of
`start_element` / `end_element` as accumulators. -/
def scanElems (start_id end_id : String) :
    List (Option Element) → Option Element → Option Element →
    Except PyError (Option Element × Option Element)
  | [], se, ee => .ok (se, ee)
  | none :: _, _, _ => .error .typeError
  | some e :: rest, se, ee =>
    if e.id = start_id then scanElems start_id end_id rest (some e) ee
    else if e.id = end_id then scanElems start_id end_id rest se (some e)
    else scanElems start_id end_id rest se ee

/-- Append `entry` to the bound-elements of the first entry (in list
order) whose id is `tid`. -/
def updateFirst (tid : String) (entry : BoundElement) :
    List (Option Element) → List (Option Element)
  | [] => []
  | none :: rest => none :: updateFirst tid entry rest
  | some e :: rest =>
    if e.id = tid then
      some { e with boundElements := e.boundElements ++ [entry] } :: rest
    else some e :: updateFirst tid entry rest

/-- Append `entry` to the bound-elements of the last entry whose id is
`tid` — the entry the Python references left by the scan point to. -/
def updateLast (tid : String) (entry : BoundElement)
    (es : List (Option Element)) : List (Option Element) :=
  (updateFirst tid entry es.reverse).reverse

/-- In-place mutation of a Python dict that local lists alias: the same
bound-element append, applied to a local copy when the ids match. -/
def bindLocal (tid : String) (entry : BoundElement) (e : Element) : Element :=
  if e.id = tid then { e with boundElements := e.boundElements ++ [entry] }
  else e

/-- `create_arrow`.  On an exception the returned state is the state at
the raise, which precedes every mutation.  The post-scan mutation appends
the arrow reference to the two elements the scan references point to (the
last matches). -/
def create_arrow (s : AgentState) (start_element_id end_element_id : String)
    (start_pos end_pos : Option Position) (style : String) (width : ℚ) :
    Except PyError Element × AgentState :=
  match scanElems start_element_id end_element_id s.elements none none with
  | .error e => (.error e, s)
  | .ok (se, ee) =>
    match se, ee with
    | some start_element, some end_element =>
      let sp := start_pos.getD ⟨start_element.x + start_element.width,
        start_element.y + start_element.height / 2⟩
      let ep := end_pos.getD ⟨end_element.x,
        end_element.y + end_element.height / 2⟩
      let arrow_width := ep.x - sp.x
      let arrow_height := ep.y - sp.y
      let pid := _generate_id s "arrow"
      let arrow_id := pid.1
      let p := _create_base_element pid.2 "arrow" sp.x sp.y
        |arrow_width| |arrow_height| (some arrow_id)
      let arrow := { p.1 with
        strokeStyle := style
        strokeWidth := width
        roundness := some 2
        startBinding := some ⟨start_element_id, 0, 1⟩
        endBinding := some ⟨end_element_id, 0, 1⟩
        lastCommittedPoint := some none
        startArrowhead := some none
        endArrowhead := some (some "arrow")
        points := some [(0, 0), (arrow_width, arrow_height)] }
      let entry : BoundElement := ⟨arrow_id, "arrow"⟩
      let newElems := updateLast end_element_id entry
        (updateLast start_element_id entry p.2.elements)
      (.ok arrow, { p.2 with elements := newElems })
    | _, _ => (.error (.valueError "Start or end element not found"), s)

/-! ## Layout engine

The layouts build local Python lists (`elements`, `shapes`,
`parallel_elements`) whose entries are the same dict objects as the ones
appended to `self.elements`; `create_arrow`'s in-place mutation is
therefore visible through every alias.  The model mirrors the aliasing by
applying the same bound-element append (`bindLocal`) to every local copy
with the mutated id — equivalent because all ids created by one agent are
pairwise distinct. -/

/-- The shape-or-ellipse branch of the sequential layout's first loop
(`if item_type == "rectangle": ... else: ...`). -/
def seqMakeShape (s : AgentState) (current_x current_y : ℚ)
    (item color item_type : String) : (Element × Option Element) × AgentState :=
  if item_type = "rectangle"
  then create_rectangle s current_x current_y none none (some item) (some color)
  else create_ellipse s current_x current_y none none (some item) (some color)

/-- First loop of `create_sequential_layout`: create all shapes (and
label texts), accumulating the local `elements` and `shapes` lists.
`colors[i % len(colors)]` raises `ZeroDivisionError` on an empty color
list. -/
def seqFirstPass (s : AgentState) (items : List String) (i : Nat)
    (current_x current_y : ℚ) (item_type : String) (colors : List String) :
    Except PyError (List Element × List Element) × AgentState :=
  match items with
  | [] => (.ok ([], []), s)
  | item :: rest =>
    if colors.length = 0 then (.error .zeroDivisionError, s)
    else
      let color := colors.getD (i % colors.length) ""
      let q := seqMakeShape s current_x current_y item color item_type
      let shape := q.1.1
      let block := shape :: (match q.1.2 with | some t => [t] | none => [])
      match seqFirstPass q.2 rest (i + 1)
        (current_x + default_element_width + default_spacing_x) current_y
        item_type colors with
      | (.error e, s') => (.error e, s')
      | (.ok (els, shs), s') => (.ok (block ++ els, shape :: shs), s')

/-- `list.remove(x)`: drop the first entry equal to `x`. -/
def removeFirst (x : Option Element) :
    List (Option Element) → List (Option Element)
  | [] => []
  | y :: rest => if y = x then rest else y :: removeFirst x rest

/-- Second loop of `create_sequential_layout`: for each consecutive pair
of shapes, temporarily add the pair to `self.elements` (when absent),
create the connecting arrow, then remove the pair again. -/
def seqSecondPass (s : AgentState) (elements : List Element) :
    List Element → Except PyError (List Element) × AgentState
  | [] => (.ok elements, s)
  | [_] => (.ok elements, s)
  | a :: b :: rest =>
    let s1 := if (some a) ∈ s.elements then s else add_element s (some a)
    let s2 := if (some b) ∈ s1.elements then s1 else add_element s1 (some b)
    match create_arrow s2 a.id b.id none none "solid" 2 with
    | (.error e, s3) => (.error e, s3)
    | (.ok arrow, s3) =>
      let entry : BoundElement := ⟨arrow.id, "arrow"⟩
      let a' := bindLocal a.id entry a
      let b' := bindLocal b.id entry b
      let elements' := elements.map (bindLocal b.id entry ∘ bindLocal a.id entry)
      let s4 := if (some a') ∈ s3.elements
        then { s3 with elements := removeFirst (some a') s3.elements } else s3
      let s5 := if (some b') ∈ s4.elements
        then { s4 with elements := removeFirst (some b') s4.elements } else s4
      match seqSecondPass s5 (elements' ++ [arrow]) (b' :: rest) with
      | (.error e, s6) => (.error e, s6)
      | (.ok res, s6) => (.ok res, s6)
termination_by l => l.length
decreasing_by simp

/-- `create_sequential_layout`. -/
def create_sequential_layout (s : AgentState) (items : List String)
    (start_x start_y : ℚ) (item_type : String)
    (colors : Option (List String)) :
    Except PyError (List Element) × AgentState :=
  let cs := colors.getD ["#ffec99"]
  match seqFirstPass s items 0 start_x start_y item_type cs with
  | (.error e, s') => (.error e, s')
  | (.ok (elements, shapes), s') => seqSecondPass s' elements shapes

/-- Destination loop of `create_routing_layout`.  The transcendental
`math.cos` / `math.sin` are abstracted as parameters `rcos` / `rsin`
(no settled claim depends on their values). -/
def routingLoop (rcos rsin : ℚ → ℚ) (s : AgentState)
    (elements : List (Option Element)) (router : Element)
    (start_x start_y angle_step radius : ℚ) (dest_colors : List String)
    (i : Nat) : List String →
    Except PyError (List (Option Element)) × AgentState
  | [] => (.ok elements, s)
  | dest_name :: rest =>
    if dest_colors.length = 0 then (.error .zeroDivisionError, s)
    else
      let angle := (i : ℚ) * angle_step
      let dest_x := start_x + radius * rcos angle
      let dest_y := start_y + radius * rsin angle
      let color := dest_colors.getD (i % dest_colors.length) ""
      let q := create_rectangle s dest_x dest_y none none (some dest_name)
        (some color)
      let dest := q.1.1
      let dest_text := q.1.2
      let s1 := add_element (add_element q.2 (some dest)) dest_text
      match create_arrow s1 router.id dest.id none none "solid" 2 with
      | (.error e, s2) => (.error e, s2)
      | (.ok arrow, s2) =>
        let entry : BoundElement := ⟨arrow.id, "arrow"⟩
        let elements' := (elements ++ [some dest, dest_text]).map
          (Option.map (bindLocal dest.id entry ∘ bindLocal router.id entry))
          ++ [some arrow]
        routingLoop rcos rsin s2 elements' router start_x start_y angle_step
          radius dest_colors (i + 1) rest

/-- `create_routing_layout`.  `angle_step = 2 * math.pi / len(destinations)`
raises `ZeroDivisionError` for an empty destination list — after the
router (and its label, possibly `None`) have already been appended.
`math.pi` is abstracted as `piQ`. -/
def create_routing_layout (rcos rsin : ℚ → ℚ) (piQ : ℚ) (s : AgentState)
    (router_name : String) (destinations : List String)
    (start_x start_y : ℚ) (router_color : Option String)
    (dest_colors : Option (List String)) :
    Except PyError (List (Option Element)) × AgentState :=
  let rc := router_color.getD "#a5d8ff"
  let dcs := dest_colors.getD ["#ffec99"]
  let q := create_rectangle s start_x start_y none none (some router_name)
    (some rc)
  let router := q.1.1
  let router_text := q.1.2
  let elements : List (Option Element) := [some router, router_text]
  let s1 := add_element (add_element q.2 (some router)) router_text
  if destinations.length = 0 then (.error .zeroDivisionError, s1)
  else
    let angle_step := 2 * piQ / (destinations.length : ℚ)
    let radius := default_spacing_x * (3/2)
    routingLoop rcos rsin s1 elements router start_x start_y angle_step
      radius dcs 0 destinations

/-- Fan-out loop of `create_parallel_layout`: create each parallel shape
and the arrow from the input element to it; also accumulates the local
`parallel_elements` list (in its state after the in-place mutations of
this loop). -/
def parallelLoop (s : AgentState) (elements : List (Option Element))
    (input_elem : Element) (parallel_x start_y : ℚ) (count : Nat)
    (colors : List String) (i : Nat) : List String →
    Except PyError (List (Option Element) × List Element) × AgentState
  | [] => (.ok (elements, []), s)
  | item_name :: rest =>
    if colors.length = 0 then (.error .zeroDivisionError, s)
    else
      let item_y := start_y + ((i : ℚ) - (count : ℚ) / 2) * default_spacing_y
      let color := colors.getD (i % colors.length) ""
      let q := create_rectangle s parallel_x item_y none none (some item_name)
        (some color)
      let item := q.1.1
      let item_text := q.1.2
      let s1 := add_element (add_element q.2 (some item)) item_text
      match create_arrow s1 input_elem.id item.id none none "solid" 2 with
      | (.error e, s2) => (.error e, s2)
      | (.ok arrow, s2) =>
        let entry : BoundElement := ⟨arrow.id, "arrow"⟩
        let elements' := (elements ++ [some item, item_text]).map
          (Option.map (bindLocal item.id entry ∘ bindLocal input_elem.id entry))
          ++ [some arrow]
        let item' := bindLocal item.id entry item
        match parallelLoop s2 elements' input_elem parallel_x start_y count
          colors (i + 1) rest with
        | (.error e, s3) => (.error e, s3)
        | (.ok (els, pes), s3) => (.ok (els, item' :: pes), s3)

/-- Fan-in loop of `create_parallel_layout`: an arrow from every parallel
element to the output element. -/
def parallelOutLoop (s : AgentState) (elements : List (Option Element))
    (output_elem : Element) : List Element →
    Except PyError (List (Option Element)) × AgentState
  | [] => (.ok elements, s)
  | pe :: rest =>
    match create_arrow s pe.id output_elem.id none none "solid" 2 with
    | (.error e, s2) => (.error e, s2)
    | (.ok arrow, s2) =>
      let entry : BoundElement := ⟨arrow.id, "arrow"⟩
      let elements' := elements.map
        (Option.map (bindLocal output_elem.id entry ∘ bindLocal pe.id entry))
        ++ [some arrow]
      parallelOutLoop s2 elements' output_elem rest

/-- `create_parallel_layout`. -/
def create_parallel_layout (s : AgentState) (input_name : String)
    (parallel_items : List String) (output_name : String)
    (start_x start_y : ℚ) (colors : Option (List String)) :
    Except PyError (List (Option Element)) × AgentState :=
  let cs := colors.getD ["#ffec99", "#a5d8ff"]
  let q := create_ellipse s start_x start_y none none (some input_name)
    (some "transparent")
  let input_elem := q.1.1
  let input_text := q.1.2
  let elements : List (Option Element) := [some input_elem, input_text]
  let s1 := add_element (add_element q.2 (some input_elem)) input_text
  let parallel_x := start_x + default_spacing_x * 2
  match parallelLoop s1 elements input_elem parallel_x start_y
    parallel_items.length cs 0 parallel_items with
  | (.error e, s2) => (.error e, s2)
  | (.ok (els, parallel_elements), s2) =>
    let output_x := parallel_x + default_spacing_x * 2
    let q2 := create_ellipse s2 output_x start_y none none (some output_name)
      (some "transparent")
    let output_elem := q2.1.1
    let output_text := q2.1.2
    let els2 := els ++ [some output_elem, output_text]
    let s3 := add_element (add_element q2.2 (some output_elem)) output_text
    parallelOutLoop s3 els2 output_elem parallel_elements

/-! ## Document assembler -/

/-- The fixed `appState` block of `generate_excalidraw_json`. -/
structure AppState where
  gridSize : Nat
  viewBackgroundColor : String
  currentItemFontFamily : Nat
  currentItemFontSize : Nat
  currentItemStrokeColor : String
  currentItemBackgroundColor : String
  currentItemFillStyle : String
  currentItemStrokeWidth : Nat
  currentItemStrokeStyle : String
  currentItemRoughness : Nat
  currentItemOpacity : Nat
  currentItemTextAlign : String
  currentItemStartArrowhead : Option String
  currentItemEndArrowhead : Option String
deriving DecidableEq, Repr

/-- The complete Excalidraw JSON structure (`files` is the empty map). -/
structure Document where
  type : String
  version : Nat
  source : String
  elements : List (Option Element)
  appState : AppState
  files : List (String × String)
deriving DecidableEq, Repr

/-- `generate_excalidraw_json`.  The `diagram_title` parameter is accepted
and ignored, exactly as in the source. -/
def generate_excalidraw_json (s : AgentState) (_diagram_title : String) :
    Document :=
  { type := "excalidraw"
    version := 2
    source := "https://github.com/your-username/excalidraw-agent"
    elements := s.elements
    appState :=
      { gridSize := 20
        viewBackgroundColor := "#ffffff"
        currentItemFontFamily := 5
        currentItemFontSize := 16
        currentItemStrokeColor := "#1e1e1e"
        currentItemBackgroundColor := "transparent"
        currentItemFillStyle := "solid"
        currentItemStrokeWidth := 2
        currentItemStrokeStyle := "solid"
        currentItemRoughness := 1
        currentItemOpacity := 100
        currentItemTextAlign := "left"
        currentItemStartArrowhead := none
        currentItemEndArrowhead := some "arrow" }
    files := [] }

/-- The ids of a document's entries (`none` entries kept as `none`). -/
def idsOf (es : List (Option Element)) : List (Option String) :=
  es.map (Option.map Element.id)

/-- A two-rectangle document used to instantiate the arrow-binder
theorems: `rect-1` at the origin, `rect-2` at `(200, 0)`, both added. -/
def witQ1 : (Element × Option Element) × AgentState :=
  create_rectangle initAgent 0 0 none none none none

/-- State after adding the first rectangle. -/
def witS1 : AgentState := add_element witQ1.2 (some witQ1.1.1)

/-- The second rectangle. -/
def witQ2 : (Element × Option Element) × AgentState :=
  create_rectangle witS1 200 0 none none none none

/-- State after adding both rectangles. -/
def witS2 : AgentState := add_element witQ2.2 (some witQ2.1.1)

/-- The run `create_sequential_layout(["A", "B"], 50, 50)` on a fresh
agent, with the default item type and colors. -/
def seqABrun : Except PyError (List Element) × AgentState :=
  create_sequential_layout initAgent ["A", "B"] 50 50 "rectangle" none

/-- The polyline of the produced arrow (the last returned element). -/
def seqABarrowPoints : Option (List (ℚ × ℚ)) :=
  match seqABrun.1 with
  | .ok res => res.getLast?.bind Element.points
  | .error _ => none

/-! ## Id uniqueness across factory and binder calls (C7)

A trace of agent-method calls, each returning the elements it created:
the factories create one or two elements, the binder creates the arrow
(or nothing, when it raises), and the remaining methods create none. -/

/-- One agent-method call. -/
inductive AgentOp where
  /-- `create_text_element`. -/
  | opText (t : String) (x y : ℚ) (cid : Option String) (fs : Option ℚ)
  /-- `create_rectangle`. -/
  | opRect (x y : ℚ) (w h : Option ℚ) (t : Option String) (bg : Option String)
  /-- `create_ellipse`. -/
  | opEllipse (x y : ℚ) (w h : Option ℚ) (t : Option String)
      (bg : Option String)
  /-- `create_arrow`. -/
  | opArrow (a b : String) (sp ep : Option Position) (style : String) (w : ℚ)
  /-- `add_element`. -/
  | opAdd (e : Option Element)
  /-- `start_group`. -/
  | opStartGroup (n : Option String)
  /-- `end_group`. -/
  | opEndGroup

/-- Run one call: the next state and the elements the call created. -/
def runOp (s : AgentState) : AgentOp → AgentState × List Element
  | .opText t x y cid fs =>
    let q := create_text_element s t x y cid fs
    (q.2, [q.1])
  | .opRect x y w h t bg =>
    let q := create_rectangle s x y w h t bg
    (q.2, q.1.1 :: (match q.1.2 with | some e => [e] | none => []))
  | .opEllipse x y w h t bg =>
    let q := create_ellipse s x y w h t bg
    (q.2, q.1.1 :: (match q.1.2 with | some e => [e] | none => []))
  | .opArrow a b sp ep st w =>
    match create_arrow s a b sp ep st w with
    | (.ok arrow, s') => (s', [arrow])
    | (.error _, s') => (s', [])
  | .opAdd e => (add_element s e, [])
  | .opStartGroup n => ((start_group s n).2, [])
  | .opEndGroup => (end_group s, [])

/-- Run a sequence of calls, concatenating the created elements in
creation order. -/
def runOps (s : AgentState) : List AgentOp → List Element
  | [] => []
  | op :: ops =>
    let q := runOp s op
    q.2 ++ runOps q.1 ops

/-! ## Layout characterizations -/

/-- Forget an element's bound-elements list.  The in-place mutations of
`create_arrow` touch nothing else, so layout results are tracked up to
`stripBound`-equality. -/
def stripBound (e : Element) : Element := { e with boundElements := [] }

/-- The element type produced for a given `item_type` argument
(`"rectangle"` gives rectangles, anything else gives ellipses). -/
def shapeTypeOf (ty : String) : String :=
  if ty = "rectangle" then "rectangle" else "ellipse"

/-- The id prefix produced for a given `item_type` argument. -/
def shapePrefixOf (ty : String) : String :=
  if ty = "rectangle" then "rect" else "ellipse"

def typesOf (es : List (Option Element)) : List (Option String) :=
  es.map (Option.map Element.type)

/-- A hub-and-spoke appendix: every entry is a shape or a text, never an
arrow and never `None`. -/
def appGood (app : List (Option Element)) : Prop :=
  ∀ oe ∈ app, ∃ e, oe = some e ∧
    (e.type = "rectangle" ∨ e.type = "ellipse" ∨ e.type = "text")

/-- For sufficient fuel, `natStrCore` computes the reversed base-10 digit
list (mapped through `Nat.digitChar`); positive case. -/
theorem natStrCore_eq_digits (fuel n : Nat) (hn : 0 < n) (hf : n < fuel + 1) :
    natStrCore (fuel + 1) n = ((Nat.digits 10 n).reverse.map Nat.digitChar) := by
  induction fuel using Nat.strong_induction_on generalizing n with
  | _ fuel ih =>
    rw [natStrCore]
    rcases Nat.lt_or_ge n 10 with h10 | h10
    · rw [if_pos h10]
      rw [Nat.digits_def' (by norm_num : 1 < 10) hn]
      have : n / 10 = 0 := Nat.div_eq_of_lt h10
      rw [this]
      simp [Nat.mod_eq_of_lt h10]
    · rw [if_neg (by omega)]
      have hdiv_pos : 0 < n / 10 := Nat.div_pos h10 (by norm_num)
      have hdiv_lt : n / 10 < n := Nat.div_lt_self hn (by norm_num)
      rcases fuel with _ | fuel'
      · omega
      · rw [ih fuel' (by omega) (n / 10) hdiv_pos (by omega)]
        rw [Nat.digits_def' (by norm_num : 1 < 10) hn]
        simp

/-- `natStr` on a positive number is the digit string. -/
theorem natStr_eq_digits (n : Nat) (hn : 0 < n) :
    natStr n = ⟨(Nat.digits 10 n).reverse.map Nat.digitChar⟩ := by
  unfold natStr
  rw [natStrCore_eq_digits n n hn (by omega)]

/-- `Nat.digitChar` is injective on digits below 10. -/
theorem digitChar_inj_lt (a b : Nat) (ha : a < 10) (hb : b < 10)
    (h : Nat.digitChar a = Nat.digitChar b) : a = b := by
  have : ∀ x y : Fin 10, Nat.digitChar x.val = Nat.digitChar y.val → x = y := by decide
  have := this ⟨a, ha⟩ ⟨b, hb⟩ h
  exact congrArg Fin.val this

/-- `Nat.digitChar` of a digit below 10 is never the dash character. -/
theorem digitChar_ne_dash (a : Nat) (ha : a < 10) : Nat.digitChar a ≠ '-' := by
  have : ∀ x : Fin 10, Nat.digitChar x.val ≠ '-' := by decide
  exact this ⟨a, ha⟩

/-- The decimal rendering of a number contains no dash character. -/
theorem natStr_no_dash (n : Nat) : '-' ∉ (natStr n).data := by
  rcases Nat.eq_zero_or_pos n with rfl | hn
  · decide
  · rw [natStr_eq_digits n hn]
    intro h
    simp only [List.mem_map, List.mem_reverse] at h
    obtain ⟨d, hd, hdc⟩ := h
    exact digitChar_ne_dash d (Nat.digits_lt_base (by norm_num) hd) hdc

/-- Mapping `Nat.digitChar` over lists of digits below 10 is injective. -/
theorem map_digitChar_inj (l₁ l₂ : List Nat) (h₁ : ∀ d ∈ l₁, d < 10)
    (h₂ : ∀ d ∈ l₂, d < 10)
    (h : l₁.map Nat.digitChar = l₂.map Nat.digitChar) : l₁ = l₂ := by
  induction l₁ generalizing l₂ with
  | nil => cases l₂ <;> simp_all
  | cons a t ih =>
    cases l₂ with
    | nil => simp_all
    | cons b t' =>
      simp only [List.map_cons, List.cons.injEq] at h
      have ha := h₁ a (by simp)
      have hb := h₂ b (by simp)
      have hab := digitChar_inj_lt a b ha hb h.1
      have ht := ih t' (fun d hd => h₁ d (by simp [hd]))
        (fun d hd => h₂ d (by simp [hd])) h.2
      rw [hab, ht]

/-- Positive numbers whose decimal renderings agree are equal. -/
theorem natStr_inj_pos (n m : Nat) (hn : 0 < n) (hm : 0 < m)
    (h : natStr n = natStr m) : n = m := by
  rw [natStr_eq_digits n hn, natStr_eq_digits m hm] at h
  have hdata : (Nat.digits 10 n).reverse.map Nat.digitChar
      = (Nat.digits 10 m).reverse.map Nat.digitChar := congrArg String.data h
  have hrev : (Nat.digits 10 n).reverse = (Nat.digits 10 m).reverse :=
    map_digitChar_inj _ _
      (fun d hd => Nat.digits_lt_base (by norm_num) (List.mem_reverse.mp hd))
      (fun d hd => Nat.digits_lt_base (by norm_num) (List.mem_reverse.mp hd)) hdata
  have hdig : Nat.digits 10 n = Nat.digits 10 m := by
    simpa using congrArg List.reverse hrev
  calc n = Nat.ofDigits 10 (Nat.digits 10 n) := (Nat.ofDigits_digits 10 n).symm
  _ = Nat.ofDigits 10 (Nat.digits 10 m) := by rw [hdig]
  _ = m := Nat.ofDigits_digits 10 m

/-- A positive number never renders as the string `"0"`. -/
theorem natStr_ne_zero_str (m : Nat) (hm : 0 < m) : natStr m ≠ natStr 0 := by
  intro h
  rw [natStr_eq_digits m hm] at h
  have hdata : (Nat.digits 10 m).reverse.map Nat.digitChar = ['0'] :=
    congrArg String.data h
  have h0 : (['0'] : List Char) = [0].map Nat.digitChar := by decide
  rw [h0] at hdata
  have : (Nat.digits 10 m).reverse = [0] :=
    map_digitChar_inj _ _
      (fun d hd => Nat.digits_lt_base (by norm_num) (List.mem_reverse.mp hd))
      (by intro d hd; simp at hd; omega) hdata
  have hdig : Nat.digits 10 m = [0] := by
    simpa using congrArg List.reverse this
  have := Nat.ofDigits_digits 10 m
  rw [hdig] at this
  simp [Nat.ofDigits] at this
  omega

/-- `natStr` is injective: distinct naturals render distinctly. -/
theorem natStr_injective : Function.Injective natStr := by
  intro n m h
  rcases Nat.eq_zero_or_pos n with rfl | hn
  · rcases Nat.eq_zero_or_pos m with rfl | hm
    · rfl
    · exact absurd h.symm (natStr_ne_zero_str m hm)
  · rcases Nat.eq_zero_or_pos m with rfl | hm
    · exact absurd h (natStr_ne_zero_str n hn)
    · exact natStr_inj_pos n m hn hm h

/-- A dash-free block before a dash is determined by the whole list. -/
theorem dashfree_block_eq (a₁ : List Char) : ∀ (a₂ b₁ b₂ : List Char),
    '-' ∉ a₁ → '-' ∉ a₂ → a₁ ++ '-' :: b₁ = a₂ ++ '-' :: b₂ → a₁ = a₂ := by
  induction a₁ with
  | nil =>
    intro a₂ b₁ b₂ _ h₂ h
    cases a₂ with
    | nil => rfl
    | cons c t =>
      simp only [List.nil_append, List.cons_append, List.cons.injEq] at h
      exact absurd (by rw [← h.1]; simp : '-' ∈ c :: t) h₂
  | cons c t ih =>
    intro a₂ b₁ b₂ h₁ h₂ h
    cases a₂ with
    | nil =>
      simp only [List.cons_append, List.nil_append, List.cons.injEq] at h
      exact absurd (by rw [h.1]; simp : '-' ∈ c :: t) h₁
    | cons c' t' =>
      simp only [List.cons_append, List.cons.injEq] at h
      have := ih t' b₁ b₂ (by intro hm; exact h₁ (by simp [hm]))
        (by intro hm; exact h₂ (by simp [hm])) h.2
      rw [h.1, this]

/-- Splitting a character list at its last dash is unambiguous: the
dash-free suffixes after the final dash agree. -/
theorem last_dash_split (l₁ l₂ d₁ d₂ : List Char) (h₁ : '-' ∉ d₁)
    (h₂ : '-' ∉ d₂) (h : l₁ ++ '-' :: d₁ = l₂ ++ '-' :: d₂) : d₁ = d₂ := by
  have hrev : d₁.reverse ++ '-' :: l₁.reverse = d₂.reverse ++ '-' :: l₂.reverse := by
    have := congrArg List.reverse h
    simpa using this
  have hs : d₁.reverse = d₂.reverse :=
    dashfree_block_eq d₁.reverse d₂.reverse l₁.reverse l₂.reverse
      (by simpa using h₁) (by simpa using h₂) hrev
  simpa using congrArg List.reverse hs

theorem mkId_counter_inj (p₁ p₂ : String) (n₁ n₂ : Nat)
    (h : mkId p₁ n₁ = mkId p₂ n₂) : n₁ = n₂ := by
  have hdata : p₁.data ++ '-' :: (natStr n₁).data
      = p₂.data ++ '-' :: (natStr n₂).data := by
    have := congrArg String.data h
    simpa [mkId, String.data_append] using this
  have := last_dash_split _ _ _ _ (natStr_no_dash n₁) (natStr_no_dash n₂) hdata
  have hstr : natStr n₁ = natStr n₂ := by
    cases hxn : natStr n₁
    cases hyn : natStr n₂
    rw [hxn, hyn] at this
    cases this
    rfl
  exact natStr_injective hstr

/-! ## Lemmas about the arrow-binder scan and the in-place updates -/

/-- A `None` entry anywhere in the scanned list raises `TypeError`. -/
theorem scanElems_none_mem (a b : String) (es : List (Option Element))
    (h : none ∈ es) : ∀ se ee, scanElems a b es se ee = .error .typeError := by
  induction es with
  | nil => simp at h
  | cons oe rest ih =>
    intro se ee
    cases oe with
    | none => rfl
    | some e =>
      have hrest : none ∈ rest := by simpa using h
      rw [scanElems]
      split
      · exact ih hrest _ _
      · split
        · exact ih hrest _ _
        · exact ih hrest _ _

/-- Without `None` entries the scan terminates normally. -/
theorem scanElems_no_none (a b : String) (es : List (Option Element))
    (h : none ∉ es) : ∀ se ee, ∃ sto eno,
    scanElems a b es se ee = .ok (sto, eno) := by
  induction es with
  | nil => intro se ee; exact ⟨se, ee, rfl⟩
  | cons oe rest ih =>
    intro se ee
    cases oe with
    | none => exact absurd (by simp) h
    | some e =>
      have hrest : none ∉ rest := fun hm => h (by simp [hm])
      rw [scanElems]
      split
      · exact ih hrest _ _
      · split
        · exact ih hrest _ _
        · exact ih hrest _ _

/-- What the scan's final `start_element` / `end_element` references can
be: either the initial accumulator values or matching members. -/
theorem scanElems_ok_shape (a b : String) (es : List (Option Element)) :
    ∀ se ee sto eno, scanElems a b es se ee = .ok (sto, eno) →
    (sto = se ∨ ∃ st, sto = some st ∧ some st ∈ es ∧ st.id = a) ∧
    (eno = ee ∨ ∃ en, eno = some en ∧ some en ∈ es ∧ en.id = b ∧ en.id ≠ a) := by
  induction es with
  | nil =>
    intro se ee sto eno h
    rw [scanElems] at h
    cases h
    exact ⟨Or.inl rfl, Or.inl rfl⟩
  | cons oe rest ih =>
    intro se ee sto eno h
    cases oe with
    | none => rw [scanElems] at h; cases h
    | some e =>
      rw [scanElems] at h
      split at h
      · next heq =>
        have := ih _ _ _ _ h
        refine ⟨?_, ?_⟩
        · rcases this.1 with h1 | ⟨st, h1, h2, h3⟩
          · exact Or.inr ⟨e, h1, by simp, heq⟩
          · exact Or.inr ⟨st, h1, by simp [h2], h3⟩
        · rcases this.2 with h1 | ⟨en, h1, h2, h3, h4⟩
          · exact Or.inl h1
          · exact Or.inr ⟨en, h1, by simp [h2], h3, h4⟩
      · split at h
        · next hne heq =>
          have := ih _ _ _ _ h
          refine ⟨?_, ?_⟩
          · rcases this.1 with h1 | ⟨st, h1, h2, h3⟩
            · exact Or.inl h1
            · exact Or.inr ⟨st, h1, by simp [h2], h3⟩
          · rcases this.2 with h1 | ⟨en, h1, h2, h3, h4⟩
            · exact Or.inr ⟨e, h1, by simp, heq, hne⟩
            · exact Or.inr ⟨en, h1, by simp [h2], h3, h4⟩
        · have := ih _ _ _ _ h
          refine ⟨?_, ?_⟩
          · rcases this.1 with h1 | ⟨st, h1, h2, h3⟩
            · exact Or.inl h1
            · exact Or.inr ⟨st, h1, by simp [h2], h3⟩
          · rcases this.2 with h1 | ⟨en, h1, h2, h3, h4⟩
            · exact Or.inl h1
            · exact Or.inr ⟨en, h1, by simp [h2], h3, h4⟩

/-- Once the scan's start reference is set it stays set. -/
theorem scanElems_start_stays (a b : String) (es : List (Option Element)) :
    ∀ x ee sto eno, scanElems a b es (some x) ee = .ok (sto, eno) →
    sto ≠ none := by
  induction es with
  | nil =>
    intro x ee sto eno h
    rw [scanElems] at h; cases h; simp
  | cons oe rest ih =>
    intro x ee sto eno h
    cases oe with
    | none => rw [scanElems] at h; cases h
    | some e' =>
      rw [scanElems] at h
      split at h
      · exact ih _ _ _ _ h
      · split at h
        · exact ih _ _ _ _ h
        · exact ih _ _ _ _ h

/-- Once the scan's end reference is set it stays set. -/
theorem scanElems_end_stays (a b : String) (es : List (Option Element)) :
    ∀ se x sto eno, scanElems a b es se (some x) = .ok (sto, eno) →
    eno ≠ none := by
  induction es with
  | nil =>
    intro se x sto eno h
    rw [scanElems] at h; cases h; simp
  | cons oe rest ih =>
    intro se x sto eno h
    cases oe with
    | none => rw [scanElems] at h; cases h
    | some e' =>
      rw [scanElems] at h
      split at h
      · exact ih _ _ _ _ h
      · split at h
        · exact ih _ _ _ _ h
        · exact ih _ _ _ _ h

/-- If some entry carries the start id, the scan's start reference is set. -/
theorem scanElems_start_found (a b : String) (es : List (Option Element))
    (hmem : ∃ e, some e ∈ es ∧ e.id = a) :
    ∀ se ee sto eno, scanElems a b es se ee = .ok (sto, eno) → sto ≠ none := by
  induction es with
  | nil => simp at hmem
  | cons oe rest ih =>
    intro se ee sto eno h
    obtain ⟨e, he, hid⟩ := hmem
    cases oe with
    | none => rw [scanElems] at h; cases h
    | some e' =>
      rw [scanElems] at h
      rcases List.mem_cons.mp he with heq | hmem'
      · have : e' = e := by injection heq.symm
        subst this
        rw [if_pos hid] at h
        exact scanElems_start_stays a b rest _ _ _ _ h
      · split at h
        · exact scanElems_start_stays a b rest _ _ _ _ h
        · split at h
          · exact ih ⟨e, hmem', hid⟩ _ _ _ _ h
          · exact ih ⟨e, hmem', hid⟩ _ _ _ _ h

/-- If some entry carries the end id and that id differs from the start
id, the scan's end reference is set. -/
theorem scanElems_end_found (a b : String) (es : List (Option Element))
    (hmem : ∃ e, some e ∈ es ∧ e.id = b) (hne : b ≠ a) :
    ∀ se ee sto eno, scanElems a b es se ee = .ok (sto, eno) → eno ≠ none := by
  induction es with
  | nil => simp at hmem
  | cons oe rest ih =>
    intro se ee sto eno h
    obtain ⟨e, he, hid⟩ := hmem
    cases oe with
    | none => rw [scanElems] at h; cases h
    | some e' =>
      rw [scanElems] at h
      rcases List.mem_cons.mp he with heq | hmem'
      · have : e' = e := by injection heq.symm
        subst this
        rw [if_neg (by rw [hid]; exact hne), if_pos hid] at h
        exact scanElems_end_stays a b rest _ _ _ _ h
      · split at h
        · exact ih ⟨e, hmem', hid⟩ _ _ _ _ h
        · split at h
          · exact scanElems_end_stays a b rest _ _ _ _ h
          · exact ih ⟨e, hmem', hid⟩ _ _ _ _ h

/-- `updateFirst` does not change any entry's id. -/
theorem idsOf_updateFirst (tid : String) (entry : BoundElement)
    (es : List (Option Element)) :
    idsOf (updateFirst tid entry es) = idsOf es := by
  induction es with
  | nil => rfl
  | cons oe rest ih =>
    cases oe with
    | none => simpa [updateFirst, idsOf] using ih
    | some e =>
      rw [updateFirst]
      split
      · simp [idsOf]
      · simpa [idsOf] using ih

/-- `updateLast` does not change any entry's id. -/
theorem idsOf_updateLast (tid : String) (entry : BoundElement)
    (es : List (Option Element)) :
    idsOf (updateLast tid entry es) = idsOf es := by
  unfold updateLast
  have h1 : idsOf (updateFirst tid entry es.reverse).reverse
      = (idsOf (updateFirst tid entry es.reverse)).reverse := by
    simp [idsOf]
  rw [h1, idsOf_updateFirst]
  simp [idsOf]

/-- Membership of an element id, read off `idsOf`. -/
theorem mem_id_iff_idsOf (es : List (Option Element)) (i : String) :
    (∃ e, some e ∈ es ∧ e.id = i) ↔ some i ∈ idsOf es := by
  constructor
  · rintro ⟨e, he, rfl⟩
    exact List.mem_map.mpr ⟨some e, he, rfl⟩
  · intro h
    obtain ⟨oe, hoe, hmap⟩ := List.mem_map.mp h
    cases oe with
    | none => simp at hmap
    | some e => exact ⟨e, hoe, by simpa using hmap⟩

/-- `none` membership, read off `idsOf`. -/
theorem none_mem_iff_idsOf (es : List (Option Element)) :
    none ∈ es ↔ none ∈ idsOf es := by
  constructor
  · intro h; exact List.mem_map.mpr ⟨none, h, rfl⟩
  · intro h
    obtain ⟨oe, hoe, hmap⟩ := List.mem_map.mp h
    cases oe with
    | none => exact hoe
    | some e => simp at hmap

/-- When the target id occurs in the first block, `updateFirst` acts on
that block alone. -/
theorem updateFirst_append_of_mem (tid : String) (entry : BoundElement)
    (zs ws : List (Option Element)) (h : ∃ e, some e ∈ zs ∧ e.id = tid) :
    updateFirst tid entry (zs ++ ws) = updateFirst tid entry zs ++ ws := by
  induction zs with
  | nil => simp at h
  | cons oe rest ih =>
    obtain ⟨e, he, hid⟩ := h
    cases oe with
    | none =>
      have : some e ∈ rest := by simpa using he
      simp [updateFirst, ih ⟨e, this, hid⟩]
    | some e' =>
      rw [List.cons_append, updateFirst, updateFirst]
      split
      · rfl
      · next hne =>
        have : some e ∈ rest := by
          rcases List.mem_cons.mp he with heq | hmem'
          · exfalso; apply hne
            have : e' = e := by injection heq.symm
            rw [this, hid]
          · exact hmem'
        rw [ih ⟨e, this, hid⟩]
        rfl

/-- When the target id occurs in the second block, `updateLast` acts on
that block alone. -/
theorem updateLast_append_of_mem (tid : String) (entry : BoundElement)
    (xs ys : List (Option Element)) (h : ∃ e, some e ∈ ys ∧ e.id = tid) :
    updateLast tid entry (xs ++ ys) = xs ++ updateLast tid entry ys := by
  unfold updateLast
  rw [List.reverse_append]
  obtain ⟨e, he, hid⟩ := h
  rw [updateFirst_append_of_mem tid entry ys.reverse xs.reverse
    ⟨e, by simpa using he, hid⟩]
  simp

/-- `updateFirst` records the bound-element entry on a matching element. -/
theorem updateFirst_mem_bound (tid : String) (entry : BoundElement)
    (es : List (Option Element)) (h : ∃ e, some e ∈ es ∧ e.id = tid) :
    ∃ e, some e ∈ updateFirst tid entry es ∧ e.id = tid ∧
      entry ∈ e.boundElements := by
  induction es with
  | nil => simp at h
  | cons oe rest ih =>
    obtain ⟨e, he, hid⟩ := h
    cases oe with
    | none =>
      have : some e ∈ rest := by simpa using he
      obtain ⟨e', h1, h2, h3⟩ := ih ⟨e, this, hid⟩
      exact ⟨e', by simp [updateFirst, h1], h2, h3⟩
    | some e' =>
      rw [updateFirst]
      split
      · next heq =>
        exact ⟨{ e' with boundElements := e'.boundElements ++ [entry] },
          by simp, heq, by simp⟩
      · next hne =>
        have : some e ∈ rest := by
          rcases List.mem_cons.mp he with heq' | hmem'
          · exfalso; apply hne
            have : e' = e := by injection heq'.symm
            rw [this, hid]
          · exact hmem'
        obtain ⟨e'', h1, h2, h3⟩ := ih ⟨e, this, hid⟩
        exact ⟨e'', by simp [h1], h2, h3⟩

/-- `updateLast` records the bound-element entry on a matching element. -/
theorem updateLast_mem_bound (tid : String) (entry : BoundElement)
    (es : List (Option Element)) (h : ∃ e, some e ∈ es ∧ e.id = tid) :
    ∃ e, some e ∈ updateLast tid entry es ∧ e.id = tid ∧
      entry ∈ e.boundElements := by
  unfold updateLast
  obtain ⟨e, he, hid⟩ := h
  obtain ⟨e', h1, h2, h3⟩ := updateFirst_mem_bound tid entry es.reverse
    ⟨e, by simpa using he, hid⟩
  exact ⟨e', by simpa using h1, h2, h3⟩

/-- Entries whose id differs from the target survive `updateFirst`. -/
theorem mem_updateFirst_of_ne (tid : String) (entry : BoundElement)
    (es : List (Option Element)) (x : Element) (hx : some x ∈ es)
    (hne : x.id ≠ tid) : some x ∈ updateFirst tid entry es := by
  induction es with
  | nil => simp at hx
  | cons oe rest ih =>
    cases oe with
    | none =>
      rcases List.mem_cons.mp hx with heq | hmem'
      · cases heq
      · simp [updateFirst, ih hmem']
    | some e' =>
      rw [updateFirst]
      rcases List.mem_cons.mp hx with heq | hmem'
      · have : e' = x := by injection heq.symm
        subst this
        rw [if_neg (by simpa using hne)]
        simp
      · split
        · simp [hmem']
        · simp [ih hmem']

/-- Entries whose id differs from the target survive `updateLast`. -/
theorem mem_updateLast_of_ne (tid : String) (entry : BoundElement)
    (es : List (Option Element)) (x : Element) (hx : some x ∈ es)
    (hne : x.id ≠ tid) : some x ∈ updateLast tid entry es := by
  unfold updateLast
  have := mem_updateFirst_of_ne tid entry es.reverse x (by simpa using hx) hne
  simpa using this

/-- `list.remove` drops exactly the first equal entry. -/
theorem removeFirst_append (x : Option Element) (ys zs : List (Option Element))
    (h : x ∉ ys) : removeFirst x (ys ++ x :: zs) = ys ++ zs := by
  induction ys with
  | nil => simp [removeFirst]
  | cons y rest ih =>
    have hne : y ≠ x := fun he => h (by simp [he])
    have : x ∉ rest := fun hm => h (by simp [hm])
    simp [removeFirst, hne, ih this]

/-! ## Characterizations of `create_arrow` -/

/-- A document containing a `None` entry makes `create_arrow` raise
`TypeError`, before any mutation. -/
theorem create_arrow_typeError (s : AgentState) (a b : String)
    (sp ep : Option Position) (st : String) (w : ℚ)
    (h : none ∈ s.elements) :
    create_arrow s a b sp ep st w = (.error .typeError, s) := by
  unfold create_arrow
  rw [scanElems_none_mem a b s.elements h none none]

/-- If either endpoint id is absent (and no `None` entry intervenes),
`create_arrow` raises the `ValueError` and leaves the state untouched. -/
theorem create_arrow_notFound (s : AgentState) (a b : String)
    (sp ep : Option Position) (st : String) (w : ℚ)
    (hno : none ∉ s.elements)
    (habs : (∀ e, some e ∈ s.elements → e.id ≠ a) ∨
      (∀ e, some e ∈ s.elements → e.id ≠ b)) :
    create_arrow s a b sp ep st w
      = (.error (.valueError "Start or end element not found"), s) := by
  obtain ⟨sto, eno, hscan⟩ := scanElems_no_none a b s.elements hno none none
  have hshape := scanElems_ok_shape a b s.elements none none sto eno hscan
  unfold create_arrow
  rw [hscan]
  rcases habs with habs | habs
  · have hsto : sto = none := by
      rcases hshape.1 with h1 | ⟨e, _, hmem, hid⟩
      · exact h1
      · exact absurd hid (habs e hmem)
    subst hsto
    cases eno <;> rfl
  · have heno : eno = none := by
      rcases hshape.2 with h1 | ⟨e, _, hmem, hid, _⟩
      · exact h1
      · exact absurd hid (habs e hmem)
    subst heno
    cases sto <;> rfl

/-- A self-arrow (equal start and end ids) always fails with the
`ValueError`: the scan's `elif` can never set the end reference. -/
theorem create_arrow_self (s : AgentState) (a : String)
    (sp ep : Option Position) (st : String) (w : ℚ)
    (hno : none ∉ s.elements) :
    create_arrow s a a sp ep st w
      = (.error (.valueError "Start or end element not found"), s) := by
  obtain ⟨sto, eno, hscan⟩ := scanElems_no_none a a s.elements hno none none
  have hshape := scanElems_ok_shape a a s.elements none none sto eno hscan
  unfold create_arrow
  rw [hscan]
  have heno : eno = none := by
    rcases hshape.2 with h1 | ⟨e, _, _, hid, hne⟩
    · exact h1
    · exact absurd hid hne
  subst heno
  cases sto <;> rfl

/-- Success characterization of `create_arrow`: with both ids present,
distinct, and no `None` entry, an arrow is minted with the next counter

value and both endpoint entries gain the arrow reference. -/
theorem create_arrow_ok (s : AgentState) (a b : String)
    (sp ep : Option Position) (st : String) (w : ℚ)
    (hno : none ∉ s.elements)
    (ha : ∃ e, some e ∈ s.elements ∧ e.id = a)
    (hb : ∃ e, some e ∈ s.elements ∧ e.id = b)
    (hne : a ≠ b) :
    ∃ arrow, create_arrow s a b sp ep st w = (.ok arrow,
      { s with
        element_counter := s.element_counter + 1
        elements := updateLast b ⟨mkId "arrow" (s.element_counter + 1), "arrow"⟩
          (updateLast a ⟨mkId "arrow" (s.element_counter + 1), "arrow"⟩
            s.elements) }) ∧
      arrow.id = mkId "arrow" (s.element_counter + 1) ∧
      arrow.type = "arrow" ∧
      arrow.startBinding = some ⟨a, 0, 1⟩ ∧
      arrow.endBinding = some ⟨b, 0, 1⟩ ∧
      arrow.boundElements = [] := by
  obtain ⟨sto, eno, hscan⟩ := scanElems_no_none a b s.elements hno none none
  have hst := scanElems_start_found a b s.elements ha none none sto eno hscan
  have hen := scanElems_end_found a b s.elements hb
    (fun hba => hne hba.symm) none none sto eno hscan
  unfold create_arrow
  rw [hscan]
  cases sto with
  | none => exact absurd rfl hst
  | some stel =>
    cases eno with
    | none => exact absurd rfl hen
    | some enel =>
      refine ⟨_, rfl, ?_, ?_, ?_, ?_, ?_⟩ <;>
        simp [_create_base_element, _generate_id]

/-- Inversion for a successful `create_arrow`: what must have held and
what the result looks like. -/
theorem create_arrow_ok_inversion (s : AgentState) (a b : String)
    (sp ep : Option Position) (st : String) (w : ℚ) (arrow : Element)
    (s' : AgentState)
    (h : create_arrow s a b sp ep st w = (.ok arrow, s')) :
    a ≠ b ∧
    (∃ e, some e ∈ s.elements ∧ e.id = a) ∧
    (∃ e, some e ∈ s.elements ∧ e.id = b) ∧
    arrow.id = mkId "arrow" (s.element_counter + 1) ∧
    arrow.type = "arrow" ∧
    arrow.startBinding = some ⟨a, 0, 1⟩ ∧
    arrow.endBinding = some ⟨b, 0, 1⟩ ∧
    s'.element_counter = s.element_counter + 1 ∧
    s'.elements = updateLast b ⟨arrow.id, "arrow"⟩
      (updateLast a ⟨arrow.id, "arrow"⟩ s.elements) := by
  unfold create_arrow at h
  rcases hscan : scanElems a b s.elements none none with e | ⟨sto, eno⟩
  · rw [hscan] at h; cases h
  · rw [hscan] at h
    have hshape := scanElems_ok_shape a b s.elements none none sto eno hscan
    cases sto with
    | none => cases eno <;> cases h
    | some stel =>
      cases eno with
      | none => cases h
      | some enel =>
        obtain ⟨ha', hmema, hida⟩ :
            ∃ e, some e ∈ s.elements ∧ e.id = a := by
          rcases hshape.1 with h1 | ⟨e, h1, h2, h3⟩
          · cases h1
          · exact ⟨e, h2, h3⟩
        obtain ⟨hb', hmemb, hidb, hbne⟩ :
            ∃ e, some e ∈ s.elements ∧ e.id = b ∧ e.id ≠ a := by
          rcases hshape.2 with h1 | ⟨e, h1, h2, h3, h4⟩
          · cases h1
          · exact ⟨e, h2, h3, h4⟩
        simp only [Prod.mk.injEq] at h
        obtain ⟨harrow, hs'⟩ := h
        have harrow' := harrow.symm
        have hs'' := hs'.symm
        refine ⟨fun hab => hbne (by rw [hidb, hab]), ⟨ha', hmema, hida⟩,
          ⟨hb', hmemb, hidb⟩, ?_, ?_, ?_, ?_, ?_, ?_⟩
        · injection harrow' with h1; subst h1
          simp [_create_base_element, _generate_id]
        · injection harrow' with h1; subst h1
          simp [_create_base_element, _generate_id]
        · injection harrow' with h1; subst h1
          simp [_create_base_element, _generate_id]
        · injection harrow' with h1; subst h1
          simp [_create_base_element, _generate_id]
        · rw [hs'']
          simp [_create_base_element, _generate_id]
        · rw [hs'']
          injection harrow' with h1
          subst h1
          simp [_create_base_element, _generate_id]

/-! ## Factory characterizations -/

/-- `create_text_element` only bumps the counter. -/
theorem create_text_element_state (s : AgentState) (t : String) (x y : ℚ)
    (cid : Option String) (fs : Option ℚ) :
    (create_text_element s t x y cid fs).2
      = { s with element_counter := s.element_counter + 1 } := by
  rfl

/-- The text element's id and type. -/
theorem create_text_element_fields (s : AgentState) (t : String) (x y : ℚ)
    (cid : Option String) (fs : Option ℚ) :
    (create_text_element s t x y cid fs).1.id
        = mkId "element" (s.element_counter + 1) ∧
    (create_text_element s t x y cid fs).1.type = "text" := by
  constructor <;> rfl

/-- Characterization of `create_rectangle`: ids, types, document
untouched, counter growth, and when the label text exists. -/
theorem create_rectangle_spec (s : AgentState) (x y : ℚ)
    (w h : Option ℚ) (t : Option String) (bg : Option String) :
    (create_rectangle s x y w h t bg).1.1.id
        = mkId "rect" (s.element_counter + 1) ∧
    (create_rectangle s x y w h t bg).1.1.type = "rectangle" ∧
    ((create_rectangle s x y w h t bg).2).elements = s.elements ∧
    s.element_counter + 1 ≤ ((create_rectangle s x y w h t bg).2).element_counter ∧
    ((create_rectangle s x y w h t bg).2).element_counter ≤ s.element_counter + 2 ∧
    (∀ e, (create_rectangle s x y w h t bg).1.2 = some e →
      e.id = mkId "element" (s.element_counter + 2) ∧ e.type = "text") ∧
    ((create_rectangle s x y w h t bg).1.2 = none ↔ t.getD "" = "") := by
  rcases t with _ | t
  · refine ⟨rfl, rfl, rfl, ?_, ?_, ?_, ?_⟩ <;>
      simp [create_rectangle, _create_base_element, _generate_id]
  · by_cases ht : t = ""
    · subst ht
      refine ⟨rfl, rfl, rfl, ?_, ?_, ?_, ?_⟩ <;>
        simp [create_rectangle, _create_base_element, _generate_id]
    · refine ⟨?_, ?_, ?_, ?_, ?_, ?_, ?_⟩ <;>
        simp [create_rectangle, create_text_element, _create_base_element,
          _generate_id, ht]

/-- Characterization of `create_ellipse`, mirroring `create_rectangle`. -/
theorem create_ellipse_spec (s : AgentState) (x y : ℚ)
    (w h : Option ℚ) (t : Option String) (bg : Option String) :
    (create_ellipse s x y w h t bg).1.1.id
        = mkId "ellipse" (s.element_counter + 1) ∧
    (create_ellipse s x y w h t bg).1.1.type = "ellipse" ∧
    ((create_ellipse s x y w h t bg).2).elements = s.elements ∧
    s.element_counter + 1 ≤ ((create_ellipse s x y w h t bg).2).element_counter ∧
    ((create_ellipse s x y w h t bg).2).element_counter ≤ s.element_counter + 2 ∧
    (∀ e, (create_ellipse s x y w h t bg).1.2 = some e →
      e.id = mkId "element" (s.element_counter + 2) ∧ e.type = "text") ∧
    ((create_ellipse s x y w h t bg).1.2 = none ↔ t.getD "" = "") := by
  rcases t with _ | t
  · refine ⟨rfl, rfl, rfl, ?_, ?_, ?_, ?_⟩ <;>
      simp [create_ellipse, _create_base_element, _generate_id]
  · by_cases ht : t = ""
    · subst ht
      refine ⟨rfl, rfl, rfl, ?_, ?_, ?_, ?_⟩ <;>
        simp [create_ellipse, _create_base_element, _generate_id]
    · refine ⟨?_, ?_, ?_, ?_, ?_, ?_, ?_⟩ <;>
        simp [create_ellipse, create_text_element, _create_base_element,
          _generate_id, ht]

/-! ## Small decimal-rendering facts used to evaluate concrete runs -/

/-- `natStr 1`. -/
theorem natStr_one : natStr 1 = "1" := by decide

/-- `natStr 2`. -/
theorem natStr_two : natStr 2 = "2" := by decide

/-- `natStr 3`. -/
theorem natStr_three : natStr 3 = "3" := by decide

/-- `natStr 4`. -/
theorem natStr_four : natStr 4 = "4" := by decide

/-- `natStr 5`. -/
theorem natStr_five : natStr 5 = "5" := by decide

/-- `natStr 6`. -/
theorem natStr_six : natStr 6 = "6" := by decide

/-- `natStr 7`. -/
theorem natStr_seven : natStr 7 = "7" := by decide

/-- `natStr 8`. -/
theorem natStr_eight : natStr 8 = "8" := by decide

/-- `natStr 9`. -/
theorem natStr_nine : natStr 9 = "9" := by decide

/-- `natStr 10`. -/
theorem natStr_ten : natStr 10 = "10" := by decide

/-- `natStr 11`. -/
theorem natStr_eleven : natStr 11 = "11" := by decide

/-- `natStr 12`. -/
theorem natStr_twelve : natStr 12 = "12" := by decide

/-! ## Claim theorems: the arrow binder (C4, C5, C9) -/

/-- C4: for every arrow successfully created between two elements present
in the document, the bound-elements lists of both the start and the end
element gain an entry referencing the arrow's id with kind `"arrow"`, and
the arrow's `startBinding.elementId` / `endBinding.elementId` equal the
start and end ids passed to the call. -/
theorem arrow_binding_registered (s : AgentState) (a b : String)
    (sp ep : Option Position) (st : String) (w : ℚ) (arrow : Element)
    (s' : AgentState)
    (h : create_arrow s a b sp ep st w = (.ok arrow, s')) :
    arrow.startBinding = some ⟨a, 0, 1⟩ ∧
    arrow.endBinding = some ⟨b, 0, 1⟩ ∧
    (∃ e, some e ∈ s'.elements ∧ e.id = a ∧
      (⟨arrow.id, "arrow"⟩ : BoundElement) ∈ e.boundElements) ∧
    (∃ e, some e ∈ s'.elements ∧ e.id = b ∧
      (⟨arrow.id, "arrow"⟩ : BoundElement) ∈ e.boundElements) := by
  obtain ⟨hne, ha, hb, _, _, hsb, heb, _, hels⟩ :=
    create_arrow_ok_inversion s a b sp ep st w arrow s' h
  refine ⟨hsb, heb, ?_, ?_⟩
  · obtain ⟨e, h1, h2, h3⟩ :=
      updateLast_mem_bound a ⟨arrow.id, "arrow"⟩ s.elements ha
    rw [hels]
    exact ⟨e, mem_updateLast_of_ne b _ _ e h1 (by rw [h2]; exact hne), h2, h3⟩
  · have hb' : ∃ e, some e ∈ updateLast a ⟨arrow.id, "arrow"⟩ s.elements ∧
        e.id = b := by
      rw [mem_id_iff_idsOf, idsOf_updateLast]
      exact (mem_id_iff_idsOf s.elements b).mp hb
    obtain ⟨e, h1, h2, h3⟩ := updateLast_mem_bound b ⟨arrow.id, "arrow"⟩ _ hb'
    rw [hels]
    exact ⟨e, h1, h2, h3⟩

/-- Witness for C4: the concrete two-rectangle document. -/
theorem arrow_binding_registered_witness :
    ∃ arrow s', create_arrow witS2 "rect-1" "rect-2" none none "solid" 2
        = (.ok arrow, s') ∧
      arrow.startBinding = some ⟨"rect-1", 0, 1⟩ ∧
      arrow.endBinding = some ⟨"rect-2", 0, 1⟩ ∧
      (∃ e, some e ∈ s'.elements ∧ e.id = "rect-1" ∧
        (⟨arrow.id, "arrow"⟩ : BoundElement) ∈ e.boundElements) ∧
      (∃ e, some e ∈ s'.elements ∧ e.id = "rect-2" ∧
        (⟨arrow.id, "arrow"⟩ : BoundElement) ∈ e.boundElements) := by
  have hno : none ∉ witS2.elements := by
    simp [witS2, witQ2, witS1, witQ1, create_rectangle, _create_base_element,
      _generate_id, initAgent, add_element, mkId, natStr_one, natStr_two]
  have ha : ∃ e, some e ∈ witS2.elements ∧ e.id = "rect-1" := by
    simp [witS2, witQ2, witS1, witQ1, create_rectangle, _create_base_element,
      _generate_id, initAgent, add_element, mkId, natStr_one, natStr_two]
  have hb : ∃ e, some e ∈ witS2.elements ∧ e.id = "rect-2" := by
    simp [witS2, witQ2, witS1, witQ1, create_rectangle, _create_base_element,
      _generate_id, initAgent, add_element, mkId, natStr_one, natStr_two]
  obtain ⟨arrow, hrun, _, _, _, _, _⟩ :=
    create_arrow_ok witS2 "rect-1" "rect-2" none none "solid" 2 hno ha hb
      (by simp)
  obtain ⟨h1, h2, h3, h4⟩ :=
    arrow_binding_registered witS2 "rect-1" "rect-2" none none "solid" 2
      arrow _ hrun
  exact ⟨arrow, _, hrun, h1, h2, h3, h4⟩

/-- C5: arrow creation fails with the element-not-found error
(`ValueError("Start or end element not found")`, the spec's
`ElementNotFound`) whenever either endpoint id is absent from the
document, and the failing call leaves the document state unchanged. -/
theorem arrow_absent_id_fails (s : AgentState) (a b : String)
    (sp ep : Option Position) (st : String) (w : ℚ)
    (hno : none ∉ s.elements)
    (habs : (∀ e, some e ∈ s.elements → e.id ≠ a) ∨
      (∀ e, some e ∈ s.elements → e.id ≠ b)) :
    create_arrow s a b sp ep st w
      = (.error (.valueError "Start or end element not found"), s) :=
  create_arrow_notFound s a b sp ep st w hno habs

/-- Witness for C5: asking for an id that is not in the concrete
two-rectangle document. -/
theorem arrow_absent_id_fails_witness :
    create_arrow witS2 "rect-1" "nope" none none "solid" 2
      = (.error (.valueError "Start or end element not found"), witS2) := by
  apply arrow_absent_id_fails
  · simp [witS2, witQ2, witS1, witQ1, create_rectangle, _create_base_element,
      _generate_id, initAgent, add_element, mkId, natStr_one, natStr_two]
  · right
    simp [witS2, witQ2, witS1, witQ1, create_rectangle, _create_base_element,
      _generate_id, initAgent, add_element, mkId, natStr_one, natStr_two]

/-- C9: creating an arrow from an element to itself fails with the
element-not-found error even though the id exists: the scan's `elif`
never lets the id match as the end endpoint. -/
theorem arrow_self_loop_fails (s : AgentState) (i : String)
    (sp ep : Option Position) (st : String) (w : ℚ)
    (hno : none ∉ s.elements)
    (_hpres : ∃ e, some e ∈ s.elements ∧ e.id = i) :
    create_arrow s i i sp ep st w
      = (.error (.valueError "Start or end element not found"), s) :=
  create_arrow_self s i sp ep st w hno

/-- Witness for C9: a self-arrow on `rect-1`, which is present. -/
theorem arrow_self_loop_fails_witness :
    create_arrow witS2 "rect-1" "rect-1" none none "solid" 2
      = (.error (.valueError "Start or end element not found"), witS2) := by
  apply arrow_self_loop_fails
  · simp [witS2, witQ2, witS1, witQ1, create_rectangle, _create_base_element,
      _generate_id, initAgent, add_element, mkId, natStr_one, natStr_two]
  · simp [witS2, witQ2, witS1, witQ1, create_rectangle, _create_base_element,
      _generate_id, initAgent, add_element, mkId, natStr_one, natStr_two]

/-! ## Claim theorems: routing degenerate input (C2) -/

/-- C2 (refuted, code bug): the routing layout called with an empty
destination list hits the unguarded `2 * math.pi / len(destinations)`
and raises `ZeroDivisionError` — neither an `InvalidInput` failure nor a
no-op: the router and its label entry have already been appended. -/
theorem routing_empty_divzero (rcos rsin : ℚ → ℚ) (piQ : ℚ)
    (s : AgentState) (router_name : String) (sx sy : ℚ)
    (rc : Option String) (dc : Option (List String)) :
    (create_routing_layout rcos rsin piQ s router_name [] sx sy rc dc).1
      = .error .zeroDivisionError ∧
    ((create_routing_layout rcos rsin piQ s router_name [] sx sy rc dc).2).elements.length
      = s.elements.length + 2 := by
  have hels :=
    (create_rectangle_spec s sx sy none none (some router_name) (some (rc.getD "#a5d8ff"))).2.2.1
  unfold create_routing_layout
  simp [add_element, hels]

/-! ## Claim theorem: document assembly is deterministic (C8) -/

/-- C8: `generate_excalidraw_json` is a pure function of the element
list: two applications to the same element list — with any titles —
yield the identical document, every field included. -/
theorem generate_json_deterministic (s₁ s₂ : AgentState) (t₁ t₂ : String)
    (h : s₁.elements = s₂.elements) :
    generate_excalidraw_json s₁ t₁ = generate_excalidraw_json s₂ t₂ := by
  simp [generate_excalidraw_json, h]

/-- Witness for C8: two distinct agent states with equal element lists
and different titles assemble to the same document. -/
theorem generate_json_deterministic_witness :
    generate_excalidraw_json initAgent "Generated Diagram"
      = generate_excalidraw_json (end_group initAgent) "Other Title" :=
  generate_json_deterministic initAgent (end_group initAgent)
    "Generated Diagram" "Other Title" rfl

/-! ## The concrete run `Sequential(["A","B"], startX=50, startY=50)` -/

/-- `"A"` is one character long. -/
theorem strLen_A : ("A" : String).length = 1 := by decide

/-- `"B"` is one character long. -/
theorem strLen_B : ("B" : String).length = 1 := by decide

/-- C3 (counterexample): the arrow produced by
`Sequential(["A","B"], 50, 50)` has polyline `[[0,0],[150,0]]`, not the
claimed `[[0,0],[200,0]]`. -/
theorem seq_example_polyline_counterexample :
    seqABarrowPoints = some [(0, 0), (150, 0)] ∧
    seqABarrowPoints ≠ some [(0, 0), (200, 0)] := by
  constructor <;>
    simp [seqABarrowPoints, seqABrun, create_sequential_layout, seqFirstPass, seqMakeShape,
      seqSecondPass, create_rectangle, create_text_element, _create_base_element,
      _generate_id, initAgent, add_element, create_arrow, scanElems, updateLast,
      updateFirst, bindLocal, removeFirst, default_element_width,
      default_element_height, default_spacing_x, default_text_size, mkId,
      natStr_one, natStr_two, natStr_three, natStr_four, natStr_five,
      strLen_A, strLen_B]

/-- C3 (amended): `Sequential(["A","B"], 50, 50)` with the default
constants places the two shapes at `x=50` and `x=320`, both at `y=50`,
and produces exactly one arrow, starting at `(170, 80)` with polyline
`[[0,0],[150,0]]` (hence ending at `(320, 80)`). -/
theorem seq_example_amended :
    seqABrun.1.map (List.map fun e => (e.type, e.x, e.y))
      = .ok [("rectangle", 50, 50), ("text", 526/5, 72),
             ("rectangle", 320, 50), ("text", 1876/5, 72),
             ("arrow", 170, 80)] ∧
    seqABarrowPoints = some [(0, 0), (150, 0)] := by
  refine ⟨?_, ?_⟩
  · simp [seqABrun, create_sequential_layout, seqFirstPass, seqMakeShape,
      seqSecondPass, create_rectangle, create_text_element, _create_base_element,
      _generate_id, initAgent, add_element, create_arrow, scanElems, updateLast,
      updateFirst, bindLocal, removeFirst, default_element_width,
      default_element_height, default_spacing_x, default_text_size, mkId,
      natStr_one, natStr_two, natStr_three, natStr_four, natStr_five,
      strLen_A, strLen_B, Except.map]
    norm_num
  · simp [seqABarrowPoints, seqABrun, create_sequential_layout, seqFirstPass, seqMakeShape,
      seqSecondPass, create_rectangle, create_text_element, _create_base_element,
      _generate_id, initAgent, add_element, create_arrow, scanElems, updateLast,
      updateFirst, bindLocal, removeFirst, default_element_width,
      default_element_height, default_spacing_x, default_text_size, mkId,
      natStr_one, natStr_two, natStr_three, natStr_four, natStr_five,
      strLen_A, strLen_B]

/-- C1 (counterexample): the sequential layout call
`Sequential(["A","B"], 50, 50)` on a fresh agent produces five elements
(two shapes, two texts, one arrow), yet the document's element list is
empty afterwards — the shapes were added only temporarily and removed,
the texts and the arrow never appended at all. -/
theorem layout_append_counterexample :
    seqABrun.1.map List.length = .ok 5 ∧
    seqABrun.2.elements = [] := by
  constructor <;>
    simp [seqABrun, create_sequential_layout, seqFirstPass, seqMakeShape,
      seqSecondPass, create_rectangle, create_text_element, _create_base_element,
      _generate_id, initAgent, add_element, create_arrow, scanElems, updateLast,
      updateFirst, bindLocal, removeFirst, default_element_width,
      default_element_height, default_spacing_x, default_text_size, mkId,
      natStr_one, natStr_two, natStr_three, natStr_four, natStr_five,
      strLen_A, strLen_B, Except.map]

/-- The document is untouched by `create_rectangle`. -/
theorem create_rectangle_elements_eq (s : AgentState) (x y : ℚ)
    (w h : Option ℚ) (t : Option String) (bg : Option String) :
    ((create_rectangle s x y w h t bg).2).elements = s.elements :=
  (create_rectangle_spec s x y w h t bg).2.2.1

/-- The document is untouched by `create_ellipse`. -/
theorem create_ellipse_elements_eq (s : AgentState) (x y : ℚ)
    (w h : Option ℚ) (t : Option String) (bg : Option String) :
    ((create_ellipse s x y w h t bg).2).elements = s.elements :=
  (create_ellipse_spec s x y w h t bg).2.2.1

/-- Routing with an empty router label: a `None` placeholder is appended
for the missing label, and the first arrow creation raises `TypeError`. -/
theorem routing_empty_label_typeError (rcos rsin : ℚ → ℚ) (piQ : ℚ)
    (s : AgentState) (d : String) (ds : List String) (sx sy : ℚ)
    (rc : Option String) (dc : Option (List String))
    (hdc : (dc.getD ["#ffec99"]) ≠ []) :
    ∃ s', create_routing_layout rcos rsin piQ s "" (d :: ds) sx sy rc dc
        = (.error .typeError, s') ∧
      ∃ app, s'.elements = s.elements ++ app ∧ none ∈ app := by
  have hq := create_rectangle_spec s sx sy none none (some "")
    (some (rc.getD "#a5d8ff"))
  have hqtext : (create_rectangle s sx sy none none (some "")
      (some (rc.getD "#a5d8ff"))).1.2 = none := hq.2.2.2.2.2.2.mpr (by simp)
  have hlen : ¬((dc.getD ["#ffec99"]).length = 0) := by
    simpa using hdc
  simp only [create_routing_layout, hqtext, List.length_cons, routingLoop,
    Nat.succ_ne_zero, if_false, add_element, hlen,
    create_rectangle_elements_eq]
  rw [create_arrow_typeError _ _ _ _ _ _ _
    (by simp [create_rectangle_elements_eq])]
  refine ⟨_, rfl, ?_⟩
  simp only [create_rectangle_elements_eq, List.append_assoc]
  exact ⟨_, rfl, by simp⟩

/-- Parallel with an empty input label: a `None` placeholder is appended
for the missing label, and the first arrow creation raises `TypeError`. -/
theorem parallel_empty_label_typeError (s : AgentState) (it : String)
    (its : List String) (out : String) (sx sy : ℚ)
    (cs : Option (List String))
    (hcs : (cs.getD ["#ffec99", "#a5d8ff"]) ≠ []) :
    ∃ s', create_parallel_layout s "" (it :: its) out sx sy cs
        = (.error .typeError, s') ∧
      ∃ app, s'.elements = s.elements ++ app ∧ none ∈ app := by
  have hq := create_ellipse_spec s sx sy none none (some "") (some "transparent")
  have hqtext : (create_ellipse s sx sy none none (some "")
      (some "transparent")).1.2 = none := hq.2.2.2.2.2.2.mpr (by simp)
  have hlen : ¬((cs.getD ["#ffec99", "#a5d8ff"]).length = 0) := by
    simpa using hcs
  simp only [create_parallel_layout, hqtext, parallelLoop, List.length_cons,
    add_element, hlen, if_false, create_ellipse_elements_eq]
  rw [create_arrow_typeError _ _ _ _ _ _ _
    (by simp [create_rectangle_elements_eq])]
  refine ⟨_, rfl, ?_⟩
  simp only [create_ellipse_elements_eq, create_rectangle_elements_eq,
    List.append_assoc]
  exact ⟨_, rfl, by simp⟩

/-- C10: a routing layout with an empty router label and a non-empty
destination list (and likewise a parallel layout with an empty input
label and a non-empty item list) appends a `None` placeholder in place
of the missing hub text to the document's element list, and the first
subsequent arrow creation inside the layout fails with `TypeError`
(subscripting `None`), not with the element-not-found `ValueError`. -/
theorem empty_hub_null_placeholder_typeError :
    (∀ (rcos rsin : ℚ → ℚ) (piQ : ℚ) (s : AgentState) (d : String)
      (ds : List String) (sx sy : ℚ) (rc : Option String)
      (dc : Option (List String)), (dc.getD ["#ffec99"]) ≠ [] →
      ∃ s', create_routing_layout rcos rsin piQ s "" (d :: ds) sx sy rc dc
          = (.error .typeError, s') ∧
        ∃ app, s'.elements = s.elements ++ app ∧ none ∈ app) ∧
    (∀ (s : AgentState) (it : String) (its : List String) (out : String)
      (sx sy : ℚ) (cs : Option (List String)),
      (cs.getD ["#ffec99", "#a5d8ff"]) ≠ [] →
      ∃ s', create_parallel_layout s "" (it :: its) out sx sy cs
          = (.error .typeError, s') ∧
        ∃ app, s'.elements = s.elements ++ app ∧ none ∈ app) :=
  ⟨fun rcos rsin piQ s d ds sx sy rc dc hdc =>
    routing_empty_label_typeError rcos rsin piQ s d ds sx sy rc dc hdc,
   fun s it its out sx sy cs hcs =>
    parallel_empty_label_typeError s it its out sx sy cs hcs⟩

/-- Witness for C10: concrete empty-label routing and parallel calls on a
fresh agent. -/
theorem empty_hub_null_placeholder_typeError_witness :
    (∃ s', create_routing_layout (fun _ => 1) (fun _ => 0) 3 initAgent ""
        ["D"] 50 150 none none = (.error .typeError, s') ∧
      ∃ app, s'.elements = initAgent.elements ++ app ∧ none ∈ app) ∧
    (∃ s', create_parallel_layout initAgent "" ["P"] "Out" 50 300 none
        = (.error .typeError, s') ∧
      ∃ app, s'.elements = initAgent.elements ++ app ∧ none ∈ app) :=
  ⟨empty_hub_null_placeholder_typeError.1 (fun _ => 1) (fun _ => 0) 3
      initAgent "D" [] 50 150 none none (by simp),
   empty_hub_null_placeholder_typeError.2 initAgent "P" [] "Out" 50 300 none
      (by simp)⟩

/-- Counter bookkeeping of `create_rectangle`. -/
theorem create_rectangle_counter (s : AgentState) (x y : ℚ)
    (w h : Option ℚ) (t : Option String) (bg : Option String) :
    ((create_rectangle s x y w h t bg).1.2 = none →
      ((create_rectangle s x y w h t bg).2).element_counter
        = s.element_counter + 1) ∧
    (∀ e, (create_rectangle s x y w h t bg).1.2 = some e →
      ((create_rectangle s x y w h t bg).2).element_counter
        = s.element_counter + 2) := by
  rcases t with _ | t
  · constructor <;> simp [create_rectangle, _create_base_element, _generate_id]
  · by_cases ht : t = ""
    · subst ht
      constructor <;>
        simp [create_rectangle, _create_base_element, _generate_id]
    · constructor <;>
        simp [create_rectangle, create_text_element, _create_base_element,
          _generate_id, ht]

/-- Counter bookkeeping of `create_ellipse`. -/
theorem create_ellipse_counter (s : AgentState) (x y : ℚ)
    (w h : Option ℚ) (t : Option String) (bg : Option String) :
    ((create_ellipse s x y w h t bg).1.2 = none →
      ((create_ellipse s x y w h t bg).2).element_counter
        = s.element_counter + 1) ∧
    (∀ e, (create_ellipse s x y w h t bg).1.2 = some e →
      ((create_ellipse s x y w h t bg).2).element_counter
        = s.element_counter + 2) := by
  rcases t with _ | t
  · constructor <;> simp [create_ellipse, _create_base_element, _generate_id]
  · by_cases ht : t = ""
    · subst ht
      constructor <;>
        simp [create_ellipse, _create_base_element, _generate_id]
    · constructor <;>
        simp [create_ellipse, create_text_element, _create_base_element,
          _generate_id, ht]

/-- A failing `create_arrow` returns the entry state unchanged. -/
theorem create_arrow_error_state (s : AgentState) (a b : String)
    (sp ep : Option Position) (st : String) (w : ℚ) (e : PyError)
    (s' : AgentState) (h : create_arrow s a b sp ep st w = (.error e, s')) :
    s' = s := by
  unfold create_arrow at h
  rcases hscan : scanElems a b s.elements none none with e' | ⟨sto, eno⟩
  · rw [hscan] at h
    exact (Prod.mk.injEq _ _ _ _ ▸ h).2.symm
  · rw [hscan] at h
    cases sto with
    | none => cases eno <;> exact (Prod.mk.injEq _ _ _ _ ▸ h).2.symm
    | some stel =>
      cases eno with
      | none => exact (Prod.mk.injEq _ _ _ _ ▸ h).2.symm
      | some enel => cases h

/-- What one call creates: ids of the form `prefix-n` with `n` in the
half-open counter interval of the call, pairwise distinct. -/
theorem runOp_created (s : AgentState) (op : AgentOp) :
    s.element_counter ≤ ((runOp s op).1).element_counter ∧
    (∀ e ∈ (runOp s op).2, ∃ p n, e.id = mkId p n ∧
      s.element_counter < n ∧ n ≤ ((runOp s op).1).element_counter) ∧
    (((runOp s op).2).map Element.id).Nodup := by
  cases op with
  | opText t x y cid fs =>
    refine ⟨?_, ?_, ?_⟩
    · simp [runOp, create_text_element_state]
    · intro e he
      simp only [runOp, List.mem_singleton] at he
      subst he
      exact ⟨"element", s.element_counter + 1,
        (create_text_element_fields s t x y cid fs).1,
        by omega, by simp [runOp, create_text_element_state]⟩
    · simp [runOp]
  | opRect x y w h t bg =>
    have hspec := create_rectangle_spec s x y w h t bg
    have hcnt := create_rectangle_counter s x y w h t bg
    refine ⟨by simp only [runOp]; have := hspec.2.2.2.1; omega, ?_, ?_⟩
    · intro e he
      simp only [runOp, List.mem_cons] at he
      rcases he with rfl | he
      · exact ⟨"rect", s.element_counter + 1, hspec.1, by simp,
          hspec.2.2.2.1⟩
      · rcases htext : (create_rectangle s x y w h t bg).1.2 with _ | te
        · rw [htext] at he; simp at he
        · rw [htext] at he
          simp only [List.mem_singleton] at he
          subst he
          exact ⟨"element", s.element_counter + 2, (hspec.2.2.2.2.2.1 e htext).1,
            by omega, le_of_eq (hcnt.2 e htext).symm⟩
    · rcases htext : (create_rectangle s x y w h t bg).1.2 with _ | te
      · simp [runOp, htext]
      · simp only [runOp, htext, List.map_cons, List.map_nil]
        refine List.nodup_cons.mpr ⟨?_, List.nodup_singleton _⟩
        simp only [List.mem_singleton]
        intro heq
        rw [hspec.1, (hspec.2.2.2.2.2.1 te htext).1] at heq
        have := mkId_counter_inj _ _ _ _ heq
        omega
  | opEllipse x y w h t bg =>
    have hspec := create_ellipse_spec s x y w h t bg
    have hcnt := create_ellipse_counter s x y w h t bg
    refine ⟨by simp only [runOp]; have := hspec.2.2.2.1; omega, ?_, ?_⟩
    · intro e he
      simp only [runOp, List.mem_cons] at he
      rcases he with rfl | he
      · exact ⟨"ellipse", s.element_counter + 1, hspec.1, by simp,
          hspec.2.2.2.1⟩
      · rcases htext : (create_ellipse s x y w h t bg).1.2 with _ | te
        · rw [htext] at he; simp at he
        · rw [htext] at he
          simp only [List.mem_singleton] at he
          subst he
          exact ⟨"element", s.element_counter + 2, (hspec.2.2.2.2.2.1 e htext).1,
            by omega, le_of_eq (hcnt.2 e htext).symm⟩
    · rcases htext : (create_ellipse s x y w h t bg).1.2 with _ | te
      · simp [runOp, htext]
      · simp only [runOp, htext, List.map_cons, List.map_nil]
        refine List.nodup_cons.mpr ⟨?_, List.nodup_singleton _⟩
        simp only [List.mem_singleton]
        intro heq
        rw [hspec.1, (hspec.2.2.2.2.2.1 te htext).1] at heq
        have := mkId_counter_inj _ _ _ _ heq
        omega
  | opArrow a b sp ep st w =>
    rcases hrun : create_arrow s a b sp ep st w with ⟨res, s'⟩
    cases res with
    | ok arrow =>
      obtain ⟨_, _, _, hid, _, _, _, hcnt, _⟩ :=
        create_arrow_ok_inversion s a b sp ep st w arrow s' hrun
      refine ⟨?_, ?_, ?_⟩
      · simp [runOp, hrun, hcnt]
      · intro e he
        simp only [runOp, hrun, List.mem_singleton] at he
        subst he
        exact ⟨"arrow", s.element_counter + 1, hid, by simp,
          by simp [runOp, hrun, hcnt]⟩
      · simp [runOp, hrun]
    | error e =>
      have := create_arrow_error_state s a b sp ep st w e s' hrun
      subst this
      refine ⟨by simp [runOp, hrun], ?_, by simp [runOp, hrun]⟩
      intro e' he'
      simp [runOp, hrun] at he'
  | opAdd e => exact ⟨by simp [runOp, add_element], by simp [runOp], by simp [runOp]⟩
  | opStartGroup n => exact ⟨by simp [runOp, start_group, _generate_group_id], by simp [runOp], by simp [runOp]⟩
  | opEndGroup => exact ⟨by simp [runOp, end_group], by simp [runOp], by simp [runOp]⟩

/-- Created ids along a whole trace: above the starting counter and
pairwise distinct. -/
theorem runOps_created (ops : List AgentOp) : ∀ s : AgentState,
    (∀ e ∈ runOps s ops, ∃ p n, e.id = mkId p n ∧ s.element_counter < n) ∧
    ((runOps s ops).map Element.id).Nodup := by
  induction ops with
  | nil => intro s; exact ⟨by simp [runOps], by simp [runOps]⟩
  | cons op ops ih =>
    intro s
    obtain ⟨hmono, hcreated, hnodup⟩ := runOp_created s op
    obtain ⟨hrest, hrestnodup⟩ := ih (runOp s op).1
    constructor
    · intro e he
      rw [runOps] at he
      rcases List.mem_append.mp he with he | he
      · obtain ⟨p, n, h1, h2, _⟩ := hcreated e he
        exact ⟨p, n, h1, h2⟩
      · obtain ⟨p, n, h1, h2⟩ := hrest e he
        exact ⟨p, n, h1, by omega⟩
    · rw [runOps]
      rw [List.map_append]
      refine List.Nodup.append hnodup hrestnodup ?_
      intro i hi1 hi2
      obtain ⟨e1, he1, hid1⟩ := List.mem_map.mp hi1
      obtain ⟨e2, he2, hid2⟩ := List.mem_map.mp hi2
      obtain ⟨p1, n1, hp1, _, hb1⟩ := hcreated e1 he1
      obtain ⟨p2, n2, hp2, hb2⟩ := hrest e2 he2
      have : n1 = n2 := mkId_counter_inj p1 p2 n1 n2
        (by rw [← hp1, ← hp2, hid1, hid2])
      omega

/-- C7: across every sequence of factory and binder calls on one agent,
no two created elements share an id — ids embed the strictly increasing
per-document counter. -/
theorem created_ids_unique (s : AgentState) (ops : List AgentOp) :
    ((runOps s ops).map Element.id).Nodup :=
  (runOps_created ops s).2

/-- `bindLocal` changes only the bound-elements list. -/
theorem stripBound_bindLocal (tid : String) (entry : BoundElement)
    (e : Element) : stripBound (bindLocal tid entry e) = stripBound e := by
  unfold bindLocal
  split <;> rfl

/-- `stripBound` keeps the id. -/
theorem stripBound_id (e : Element) : (stripBound e).id = e.id := rfl

/-- `stripBound` keeps the type. -/
theorem stripBound_type (e : Element) : (stripBound e).type = e.type := rfl

/-- `stripBound` keeps the start binding. -/
theorem stripBound_startBinding (e : Element) :
    (stripBound e).startBinding = e.startBinding := rfl

/-- `stripBound` keeps the end binding. -/
theorem stripBound_endBinding (e : Element) :
    (stripBound e).endBinding = e.endBinding := rfl

/-- `bindLocal` keeps the id. -/
theorem bindLocal_id (tid : String) (entry : BoundElement) (e : Element) :
    (bindLocal tid entry e).id = e.id := by
  unfold bindLocal
  split <;> rfl

/-- `updateLast` does not create or remove `None` entries. -/
theorem none_mem_updateLast (tid : String) (entry : BoundElement)
    (es : List (Option Element)) :
    none ∈ updateLast tid entry es ↔ none ∈ es := by
  rw [none_mem_iff_idsOf, idsOf_updateLast, ← none_mem_iff_idsOf]

/-- Presence of an id is invariant under `updateLast`. -/
theorem mem_id_updateLast (tid : String) (entry : BoundElement)
    (es : List (Option Element)) (i : String) :
    (∃ e, some e ∈ updateLast tid entry es ∧ e.id = i)
      ↔ (∃ e, some e ∈ es ∧ e.id = i) := by
  rw [mem_id_iff_idsOf, idsOf_updateLast, ← mem_id_iff_idsOf]

/-- A rectangle label that is a non-empty string does produce the text
element. -/
theorem create_rectangle_text_some (s : AgentState) (x y : ℚ)
    (w h : Option ℚ) (t : String) (bg : Option String) (ht : t ≠ "") :
    ∃ te, (create_rectangle s x y w h (some t) bg).1.2 = some te := by
  rcases he : (create_rectangle s x y w h (some t) bg).1.2 with _ | te
  · have := ((create_rectangle_spec s x y w h (some t) bg).2.2.2.2.2.2).mp he
    simp at this
    exact absurd this ht
  · exact ⟨te, rfl⟩

/-- An ellipse label that is a non-empty string does produce the text
element. -/
theorem create_ellipse_text_some (s : AgentState) (x y : ℚ)
    (w h : Option ℚ) (t : String) (bg : Option String) (ht : t ≠ "") :
    ∃ te, (create_ellipse s x y w h (some t) bg).1.2 = some te := by
  rcases he : (create_ellipse s x y w h (some t) bg).1.2 with _ | te
  · have := ((create_ellipse_spec s x y w h (some t) bg).2.2.2.2.2.2).mp he
    simp at this
    exact absurd this ht
  · exact ⟨te, rfl⟩

theorem shapeTypeOf_ne_text (ty : String) : shapeTypeOf ty ≠ "text" := by
  unfold shapeTypeOf
  split <;> simp

theorem shapeTypeOf_ne_arrow (ty : String) : shapeTypeOf ty ≠ "arrow" := by
  unfold shapeTypeOf
  split <;> simp

theorem seqMakeShape_spec (s : AgentState) (cx cy : ℚ)
    (item color ty : String) :
    (seqMakeShape s cx cy item color ty).1.1.id
        = mkId (shapePrefixOf ty) (s.element_counter + 1) ∧
    (seqMakeShape s cx cy item color ty).1.1.type = shapeTypeOf ty ∧
    ((seqMakeShape s cx cy item color ty).2).elements = s.elements ∧
    s.element_counter + 1 ≤ ((seqMakeShape s cx cy item color ty).2).element_counter ∧
    ((seqMakeShape s cx cy item color ty).2).element_counter ≤ s.element_counter + 2 ∧
    (∀ e, (seqMakeShape s cx cy item color ty).1.2 = some e → e.type = "text") ∧
    ((seqMakeShape s cx cy item color ty).1.2 = none ↔ item = "") := by
  by_cases hty : ty = "rectangle"
  · have h := create_rectangle_spec s cx cy none none (some item) (some color)
    simp only [seqMakeShape, shapePrefixOf, shapeTypeOf, hty, if_pos rfl]
    exact ⟨h.1, h.2.1, h.2.2.1, h.2.2.2.1, h.2.2.2.2.1,
      fun e he => (h.2.2.2.2.2.1 e he).2, by simpa using h.2.2.2.2.2.2⟩
  · have h := create_ellipse_spec s cx cy none none (some item) (some color)
    simp only [seqMakeShape, shapePrefixOf, shapeTypeOf, hty, if_neg hty]
    exact ⟨h.1, h.2.1, h.2.2.1, h.2.2.2.1, h.2.2.2.2.1,
      fun e he => (h.2.2.2.2.2.1 e he).2, by simpa using h.2.2.2.2.2.2⟩

theorem seqFirstPass_spec (items : List String) :
    ∀ (s : AgentState) (i : Nat) (cx cy : ℚ) (ty : String)
      (colors : List String), colors ≠ [] →
    ∃ els shs s', seqFirstPass s items i cx cy ty colors
        = (.ok (els, shs), s') ∧
      s'.elements = s.elements ∧
      s.element_counter ≤ s'.element_counter ∧
      shs = els.filter (fun e => e.type == shapeTypeOf ty) ∧
      shs.length = items.length ∧
      els.countP (fun e => e.type == "text")
        = items.countP (fun l => !(l == "")) ∧
      (∀ e ∈ els, e.type = shapeTypeOf ty ∨ e.type = "text") ∧
      (∀ e ∈ shs, ∃ n, e.id = mkId (shapePrefixOf ty) n ∧
        s.element_counter < n ∧ n ≤ s'.element_counter) ∧
      (shs.map Element.id).Nodup ∧
      (items = [] → els = []) := by
  induction items with
  | nil =>
    intro s i cx cy ty colors hcol
    exact ⟨[], [], s, rfl, rfl, le_refl _, rfl, rfl, rfl,
      by simp, by simp, by simp, fun _ => rfl⟩
  | cons item rest ih =>
    intro s i cx cy ty colors hcol
    have hlen : ¬(colors.length = 0) := by simpa using hcol
    set Q := seqMakeShape s cx cy item (colors.getD (i % colors.length) "") ty
      with hQdef
    have hq := seqMakeShape_spec s cx cy item
      (colors.getD (i % colors.length) "") ty
    rw [← hQdef] at hq
    obtain ⟨els', shs', s'', hrun, hels, hcnt, hfilter, hlen', htext,
      htypes, hids, hnodup, _⟩ :=
      ih Q.2 (i + 1) (cx + default_element_width + default_spacing_x) cy ty
        colors hcol
    have hstynetext : ¬(Q.1.1.type = "text") := by
      rw [hq.2.1]; exact shapeTypeOf_ne_text ty
    refine ⟨Q.1.1 :: (match Q.1.2 with | some t => [t] | none => []) ++ els',
      Q.1.1 :: shs', s'', ?_, ?_, ?_, ?_, ?_, ?_, ?_, ?_, ?_, ?_⟩
    · simp only [seqFirstPass]
      rw [if_neg hlen, ← hQdef, hrun]
    · rw [hels, hq.2.2.1]
    · have h1 := hq.2.2.2.1
      omega
    · simp only [List.cons_append, List.filter_cons, List.filter_append,
        hq.2.1]
      rw [if_pos (by simp)]
      rcases he : Q.1.2 with _ | te
      · simp [← hfilter]
      · have htty : te.type = "text" := hq.2.2.2.2.2.1 te he
        simp only [List.filter_cons, htty]
        rw [if_neg (by simp; exact fun h => shapeTypeOf_ne_text ty h.symm)]
        simp [← hfilter]
    · simp [hlen']
    · rcases he : Q.1.2 with _ | te
      · have hitem : item = "" := hq.2.2.2.2.2.2.mp he
        simp only [List.cons_append, List.countP_cons, List.countP_append,
          List.nil_append, List.countP_nil]
        simp [hstynetext, htext, hitem]
      · have hitem : item ≠ "" := fun hi => by
          have h2 := hq.2.2.2.2.2.2.mpr hi
          rw [he] at h2
          cases h2
        have htetype : te.type = "text" := hq.2.2.2.2.2.1 te he
        simp only [List.cons_append, List.countP_cons, List.countP_append]
        simp [hstynetext, htetype, htext, hitem]
    · intro e he
      simp only [List.cons_append, List.mem_cons, List.mem_append] at he
      rcases he with rfl | he | he
      · exact Or.inl hq.2.1
      · rcases hte : Q.1.2 with _ | te
        · rw [hte] at he; simp at he
        · rw [hte] at he
          simp only [List.mem_singleton] at he
          subst he
          exact Or.inr (hq.2.2.2.2.2.1 e hte)
      · exact htypes e he
    · intro e he
      rcases List.mem_cons.mp he with rfl | he
      · refine ⟨s.element_counter + 1, hq.1, by omega, ?_⟩
        have h1 := hq.2.2.2.1
        omega
      · obtain ⟨n, h1, h2, h3⟩ := hids e he
        have h4 := hq.2.2.2.1
        exact ⟨n, h1, by omega, h3⟩
    · rw [List.map_cons]
      refine List.nodup_cons.mpr ⟨?_, hnodup⟩
      intro hmem
      obtain ⟨e, he, hid⟩ := List.mem_map.mp hmem
      obtain ⟨n, h1, h2, _⟩ := hids e he
      have heq : mkId (shapePrefixOf ty) (s.element_counter + 1)
          = mkId (shapePrefixOf ty) n := by
        rw [← hq.1, ← h1, hid]
      have h5 := mkId_counter_inj _ _ _ _ heq
      have h6 := hq.2.2.2.1
      omega
    · simp

theorem bindLocal_self (e : Element) (entry : BoundElement) :
    bindLocal e.id entry e
      = { e with boundElements := e.boundElements ++ [entry] } := by
  simp [bindLocal]

theorem updateLast_pair_fst (a b : Element) (entry : BoundElement)
    (hne : b.id ≠ a.id) :
    updateLast a.id entry [some a, some b]
      = [some { a with boundElements := a.boundElements ++ [entry] },
         some b] := by
  simp [updateLast, updateFirst, hne]

theorem updateLast_pair_snd (a' b : Element) (entry : BoundElement) :
    updateLast b.id entry [some a', some b]
      = [some a',
         some { b with boundElements := b.boundElements ++ [entry] }] := by
  simp [updateLast, updateFirst]

theorem seqSecondPass_cons_spec (tail : List Element) :
    ∀ (a : Element) (s : AgentState) (elements : List Element) (c0 : Nat),
    none ∉ s.elements →
    (∀ e, some e ∈ s.elements → ∀ p n, e.id = mkId p n → n ≤ c0) →
    c0 ≤ s.element_counter →
    (∀ e ∈ (a :: tail), ∃ p n, e.id = mkId p n ∧ c0 < n ∧
      n ≤ s.element_counter) →
    (((a :: tail).map Element.id)).Nodup →
    ∃ res s' arrows, seqSecondPass s elements (a :: tail) = (.ok res, s') ∧
      s'.elements = s.elements ∧
      s.element_counter ≤ s'.element_counter ∧
      res.map stripBound = (elements ++ arrows).map stripBound ∧
      arrows.length = tail.length ∧
      (∀ e ∈ arrows, e.type = "arrow") ∧
      (∀ k arr, arrows.get? k = some arr →
        ∀ s1 s2, (a :: tail).get? k = some s1 →
          (a :: tail).get? (k + 1) = some s2 →
          arr.startBinding = some ⟨s1.id, 0, 1⟩ ∧
          arr.endBinding = some ⟨s2.id, 0, 1⟩) := by
  induction tail with
  | nil =>
    intro a s elements c0 hno hbound hc0 hsh hnodup
    refine ⟨elements, s, [], by rw [seqSecondPass], rfl, le_refl _, by simp,
      rfl, by simp, ?_⟩
    intro k arr harr
    simp at harr
  | cons b rest ih =>
    intro a s elements c0 hno hbound hc0 hsh hnodup
    -- id forms of the two heads
    obtain ⟨pa, na, hida, hna1, hna2⟩ := hsh a (by simp)
    obtain ⟨pb, nb, hidb, hnb1, hnb2⟩ := hsh b (by simp)
    have hidne : a.id ≠ b.id := by
      have := (List.nodup_cons.mp hnodup).1
      intro h
      exact this (by simp [h])
    -- freshness of the two shapes
    have hafresh : (some a) ∉ s.elements := fun hmem => by
      have := hbound a hmem pa na hida
      omega
    have hbfresh : (some b) ∉ s.elements := fun hmem => by
      have := hbound b hmem pb nb hidb
      omega
    -- the two temporary adds happen
    have hs1 : (if (some a) ∈ s.elements then s else add_element s (some a))
        = add_element s (some a) := if_neg hafresh
    have habne : some b ∉ (add_element s (some a)).elements := by
      simp only [add_element, List.mem_append, List.mem_singleton]
      rintro (h | h)
      · exact hbfresh h
      · have : b = a := by injection h
        exact hidne (by rw [this])
    -- create_arrow succeeds
    have harrowok := create_arrow_ok (add_element (add_element s (some a))
        (some b)) a.id b.id none none "solid" 2
      (by simp only [add_element, List.append_assoc, List.mem_append]
          rintro (h | h)
          · exact hno h
          · simp at h)
      (⟨a, by simp [add_element], rfl⟩)
      (⟨b, by simp [add_element], rfl⟩)
      hidne
    obtain ⟨arrow, hrun, harrid, harrty, harrsb, harreb, harrbe⟩ := harrowok
    rw [seqSecondPass]
    rw [hs1, if_neg habne, hrun]
    -- normalize the arrow id and the counter of the intermediate state
    have hcnt2 : (add_element (add_element s (some a)) (some b)).element_counter
        = s.element_counter := rfl
    -- the mutated document: s.elements ++ [a', b']
    have hselems : (add_element (add_element s (some a)) (some b)).elements
        = s.elements ++ [some a, some b] := by
      simp [add_element]
    set ent : BoundElement :=
      ⟨mkId "arrow" (s.element_counter + 1), "arrow"⟩ with hentdef
    have hupd : updateLast b.id ent (updateLast a.id ent
        (s.elements ++ [some a, some b]))
        = s.elements ++
          [some { a with boundElements := a.boundElements ++ [ent] },
           some { b with boundElements := b.boundElements ++ [ent] }] := by
      rw [updateLast_append_of_mem a.id ent _ _ ⟨a, by simp, rfl⟩]
      rw [updateLast_pair_fst a b ent (Ne.symm hidne)]
      rw [updateLast_append_of_mem b.id ent _ _ ⟨b, by simp, rfl⟩]
      rw [updateLast_pair_snd]
    have hgc : (add_element (add_element s (some a)) (some b)).group_counter
        = s.group_counter := rfl
    have hcg : (add_element (add_element s (some a)) (some b)).current_group_id
        = s.current_group_id := rfl
    rw [hcnt2] at harrid
    simp only [hselems, hcnt2, hgc, hcg, ← hentdef]
    rw [hupd]
    rw [harrid]
    simp only [← hentdef, bindLocal_self]
    rw [if_pos (by simp : (some { a with boundElements := a.boundElements ++ [ent] } ∈
      s.elements ++ [some { a with boundElements := a.boundElements ++ [ent] },
        some { b with boundElements := b.boundElements ++ [ent] }]))]
    rw [removeFirst_append (some { a with boundElements := a.boundElements ++ [ent] })
      s.elements [some { b with boundElements := b.boundElements ++ [ent] }]
      (fun hm => by
        have := hbound { a with boundElements := a.boundElements ++ [ent] } hm pa na hida
        omega)]
    rw [if_pos (by simp : (some { b with boundElements := b.boundElements ++ [ent] } ∈
      s.elements ++ [some { b with boundElements := b.boundElements ++ [ent] }]))]
    rw [removeFirst_append (some { b with boundElements := b.boundElements ++ [ent] })
      s.elements []
      (fun hm => by
        have := hbound { b with boundElements := b.boundElements ++ [ent] } hm pb nb hidb
        omega)]
    simp only [List.append_nil]
    obtain ⟨res, s', arrows', hrun', hels', hcnt', hmap', hlen', htys', hbind'⟩ :=
      ih { b with boundElements := b.boundElements ++ [ent] }
        ⟨s.elements, s.element_counter + 1, s.group_counter, s.current_group_id⟩
        (List.map (bindLocal b.id ent ∘ bindLocal a.id ent) elements ++ [arrow])
        c0 hno hbound (by show c0 ≤ s.element_counter + 1; omega)
        (by
          intro e he
          rcases List.mem_cons.mp he with rfl | he
          · exact ⟨pb, nb, hidb, hnb1,
              by show nb ≤ s.element_counter + 1; omega⟩
          · obtain ⟨p, n, h1, h2, h3⟩ := hsh e (by simp [he])
            exact ⟨p, n, h1, h2,
              by show n ≤ s.element_counter + 1; omega⟩)
        (by exact (List.nodup_cons.mp hnodup).2)
    rw [hrun']
    refine ⟨res, s', arrow :: arrows', rfl, hels', ?_, ?_, ?_, ?_, ?_⟩
    · have h1 : s.element_counter + 1 ≤ s'.element_counter := hcnt'
      omega
    · rw [hmap']
      simp only [List.append_assoc, List.singleton_append, List.map_append,
        List.map_map]
      congr 1
      apply List.map_congr_left
      intro x _
      simp [Function.comp, stripBound_bindLocal]
    · simp [hlen']
    · intro e he
      rcases List.mem_cons.mp he with rfl | he
      · exact harrty
      · exact htys' e he
    · intro k arr harr s1 s2 hs1 hs2
      cases k with
      | zero =>
        have harr0 : arrow = arr := by simpa using harr
        have hs10 : a = s1 := by simpa using hs1
        have hs20 : b = s2 := by simpa using hs2
        subst harr0; subst hs10; subst hs20
        exact ⟨harrsb, harreb⟩
      | succ j =>
        have harrj : arrows'.get? j = some arr := by simpa using harr
        cases j with
        | zero =>
          have hs1b : b = s1 := by simpa using hs1
          have hs2r : rest.get? 0 = some s2 := by simpa using hs2
          subst hs1b
          have := hbind' 0 arr harrj
            { b with boundElements := b.boundElements ++ [ent] } s2
            rfl (by simpa using hs2r)
          exact this
        | succ j' =>
          have hs1r : rest.get? j' = some s1 := by simpa using hs1
          have hs2r : rest.get? (j' + 1) = some s2 := by simpa using hs2
          exact hbind' (j' + 1) arr harrj s1 s2 (by simpa using hs1r)
            (by simpa using hs2r)

theorem countP_type_strip (l₁ l₂ : List Element)
    (h : l₁.map stripBound = l₂.map stripBound) (p : Element → Bool)
    (hp : ∀ e, p (stripBound e) = p e) :
    l₁.countP p = l₂.countP p := by
  have h1 : l₁.countP p = (l₁.map stripBound).countP p := by
    rw [List.countP_map]
    exact List.countP_congr (fun x _ => by rw [Function.comp_apply, hp x])
  have h2 : l₂.countP p = (l₂.map stripBound).countP p := by
    rw [List.countP_map]
    exact List.countP_congr (fun x _ => by rw [Function.comp_apply, hp x])
  rw [h1, h2, h]

theorem filter_map_strip (l₁ l₂ : List Element)
    (h : l₁.map stripBound = l₂.map stripBound) (p : Element → Bool)
    (hp : ∀ e, p (stripBound e) = p e) :
    (l₁.filter p).map stripBound = (l₂.filter p).map stripBound := by
  have h1 : ∀ l : List Element,
      (l.filter p).map stripBound = (l.map stripBound).filter p := by
    intro l
    have h2 : List.filter p l = List.filter (p ∘ stripBound) l :=
      List.filter_congr (fun x _ => (hp x).symm)
    rw [h2, ← List.filter_map]
  rw [h1, h1, h]

theorem seq_layout_master (s : AgentState) (items : List String)
    (sx sy : ℚ) (ty : String) (colors : Option (List String))
    (hno : none ∉ s.elements)
    (hbound : ∀ e, some e ∈ s.elements → ∀ p n, e.id = mkId p n →
      n ≤ s.element_counter)
    (hcol : colors.getD ["#ffec99"] ≠ []) :
    ∃ res s', create_sequential_layout s items sx sy ty colors
        = (.ok res, s') ∧
      s'.elements = s.elements ∧
      res.countP (fun e => e.type == shapeTypeOf ty) = items.length ∧
      res.countP (fun e => e.type == "text")
        = items.countP (fun l => !(l == "")) ∧
      res.countP (fun e => e.type == "arrow") = items.length - 1 ∧
      (items = [] → res = []) ∧
      (∀ k arr, (res.filter (fun e => e.type == "arrow")).get? k = some arr →
        ∀ s1 s2,
          (res.filter (fun e => e.type == shapeTypeOf ty)).get? k = some s1 →
          (res.filter (fun e => e.type == shapeTypeOf ty)).get? (k + 1)
            = some s2 →
          arr.startBinding = some ⟨s1.id, 0, 1⟩ ∧
          arr.endBinding = some ⟨s2.id, 0, 1⟩) := by
  obtain ⟨els, shs, s₁, hrun1, hels1, hcnt1, hfilter1, hlen1, htext1,
    htypes1, hids1, hnodup1, hempty1⟩ :=
    seqFirstPass_spec items s 0 sx sy ty (colors.getD ["#ffec99"]) hcol
  have harrty : ∀ e ∈ els, ¬(e.type = "arrow") := by
    intro e he h
    rcases htypes1 e he with h1 | h1
    · exact shapeTypeOf_ne_arrow ty (h1.symm.trans h)
    · exact absurd (h1.symm.trans h) (by decide)
  -- the second pass
  rcases hshs : shs with _ | ⟨a, tail⟩
  · -- no shapes: no items, nothing to do
    have hitems : items = [] := by
      rw [hshs] at hlen1
      exact List.length_eq_zero.mp hlen1.symm
    have hels0 : els = [] := hempty1 hitems
    subst hitems
    rw [hshs] at hrun1
    rw [hels0] at hrun1
    refine ⟨[], s₁, ?_, hels1, by simp, by simp, by simp, fun _ => rfl, ?_⟩
    · simp only [create_sequential_layout]
      rw [hrun1]
      show seqSecondPass s₁ [] [] = (Except.ok [], s₁)
      rw [seqSecondPass]
    · intro k arr harr
      simp at harr
  · -- at least one shape
    obtain ⟨res, s', arrows, hrun2, hels2, hcnt2, hmap2, hlen2, htys2,
      hbind2⟩ :=
      seqSecondPass_cons_spec tail a s₁ els s.element_counter
        (by rw [hels1]; exact hno)
        (by intro e he p n h1; exact hbound e (hels1 ▸ he) p n h1)
        hcnt1
        (by intro e he; obtain ⟨n, h1, h2, h3⟩ := hids1 e (hshs ▸ he)
            exact ⟨shapePrefixOf ty, n, h1, h2, h3⟩)
        (by rw [← hshs]; exact hnodup1)
    have hstripty : ∀ (t : String) (e : Element),
        ((stripBound e).type == t) = (e.type == t) := fun t e => rfl
    have hcount : ∀ t : String, res.countP (fun e => e.type == t)
        = els.countP (fun e => e.type == t)
          + arrows.countP (fun e => e.type == t) := by
      intro t
      rw [countP_type_strip res (els ++ arrows) hmap2 _ (hstripty t)]
      exact List.countP_append _ _ _
    have harrcnt : arrows.countP (fun e => e.type == "arrow")
        = arrows.length := by
      rw [List.countP_eq_length]
      intro e he
      simp [htys2 e he]
    have hshapecnt : arrows.countP (fun e => e.type == shapeTypeOf ty)
        = 0 := by
      rw [List.countP_eq_zero]
      intro e he
      simp only [htys2 e he, beq_iff_eq]
      exact fun h => shapeTypeOf_ne_arrow ty h.symm
    have htextcnt : arrows.countP (fun e => e.type == "text") = 0 := by
      rw [List.countP_eq_zero]
      intro e he
      simp [htys2 e he]
    have hlentail : shs.length = tail.length + 1 := by rw [hshs]; simp
    refine ⟨res, s', ?_, by rw [hels2, hels1], ?_, ?_, ?_, ?_, ?_⟩
    · simp only [create_sequential_layout]
      rw [hshs] at hrun1
      rw [hrun1]
      show seqSecondPass s₁ els (a :: tail) = (Except.ok res, s')
      exact hrun2
    · rw [hcount, hshapecnt, List.countP_eq_length_filter, ← hfilter1]
      omega
    · rw [hcount, htextcnt, htext1]
      omega
    · have helsarr : els.countP (fun e => e.type == "arrow") = 0 := by
        rw [List.countP_eq_zero]
        intro e he
        simp [harrty e he]
      rw [hcount, helsarr, harrcnt, hlen2]
      omega
    · intro hitems
      rw [hitems] at hlen1
      rw [hshs] at hlen1
      simp at hlen1
    · -- the consecutive-connection facts, read through `stripBound`
      intro k arr harr s1 s2 hs1 hs2
      have hfarr : (res.filter (fun e => e.type == "arrow")).map stripBound
          = arrows.map stripBound := by
        rw [filter_map_strip res (els ++ arrows) hmap2 _ (hstripty "arrow")]
        rw [List.filter_append]
        rw [List.filter_eq_nil_iff.mpr (by intro e he; simp [harrty e he])]
        rw [List.filter_eq_self.mpr (by intro e he; simp [htys2 e he])]
        simp
      have harrshape : arrows.filter (fun e => e.type == shapeTypeOf ty)
          = [] := by
        rw [List.filter_eq_nil_iff]
        intro e he
        simp only [htys2 e he, beq_iff_eq]
        exact fun h => shapeTypeOf_ne_arrow ty h.symm
      have hfshape : (res.filter (fun e => e.type == shapeTypeOf ty)).map
          stripBound = shs.map stripBound := by
        rw [filter_map_strip res (els ++ arrows) hmap2 _
          (hstripty (shapeTypeOf ty))]
        rw [List.filter_append, harrshape, ← hfilter1]
        simp
      have hget : ∀ (l₁ l₂ : List Element), l₁.map stripBound
          = l₂.map stripBound → ∀ j x, l₁.get? j = some x →
          ∃ y, l₂.get? j = some y ∧ stripBound y = stripBound x := by
        intro l₁ l₂ h j x hx
        have h1 : (l₁.get? j).map stripBound = (l₂.get? j).map stripBound := by
          rw [← List.get?_map, ← List.get?_map, h]
        rw [hx] at h1
        rcases hy : l₂.get? j with _ | y
        · rw [hy] at h1; cases h1
        · rw [hy] at h1
          simp only [Option.map_some'] at h1
          exact ⟨y, rfl, by injection h1 with h2; exact h2.symm⟩
      obtain ⟨arr₀, harr₀, hstriparr⟩ := hget _ _ hfarr k arr harr
      obtain ⟨s1₀, hs1₀, hstrips1⟩ := hget _ _ hfshape k s1 hs1
      obtain ⟨s2₀, hs2₀, hstrips2⟩ := hget _ _ hfshape (k + 1) s2 hs2
      have hb := hbind2 k arr₀ harr₀ s1₀ s2₀ (by rw [← hshs]; exact hs1₀)
        (by rw [← hshs]; exact hs2₀)
      have hid1 : s1₀.id = s1.id := by
        have := congrArg Element.id hstrips1
        simpa [stripBound] using this
      have hid2 : s2₀.id = s2.id := by
        have := congrArg Element.id hstrips2
        simpa [stripBound] using this
      have hsb : arr.startBinding = arr₀.startBinding := by
        have := congrArg Element.startBinding hstriparr
        simpa [stripBound] using this.symm
      have heb : arr.endBinding = arr₀.endBinding := by
        have := congrArg Element.endBinding hstriparr
        simpa [stripBound] using this.symm
      rw [hsb, heb, hb.1, hb.2, hid1, hid2]
      exact ⟨rfl, rfl⟩

/-- C6: for every list of `n` labels, the sequential layout returns
exactly `n` shapes, one text per non-empty label (hence at most `n`
texts), and exactly `n - 1` arrows, the `k`-th arrow binding the `k`-th
shape to the `k+1`-st; an empty list yields no elements (and one label
yields `1 - 1 = 0` arrows). -/
theorem seq_layout_counts (s : AgentState) (items : List String)
    (sx sy : ℚ) (ty : String) (colors : Option (List String))
    (hno : none ∉ s.elements)
    (hbound : ∀ e, some e ∈ s.elements → ∀ p n, e.id = mkId p n →
      n ≤ s.element_counter)
    (hcol : colors.getD ["#ffec99"] ≠ []) :
    ∃ res s', create_sequential_layout s items sx sy ty colors
        = (.ok res, s') ∧
      res.countP (fun e => e.type == shapeTypeOf ty) = items.length ∧
      res.countP (fun e => e.type == "text")
        = items.countP (fun l => !(l == "")) ∧
      res.countP (fun e => e.type == "text") ≤ items.length ∧
      res.countP (fun e => e.type == "arrow") = items.length - 1 ∧
      (items = [] → res = []) ∧
      (∀ k arr, (res.filter (fun e => e.type == "arrow")).get? k = some arr →
        ∀ s1 s2,
          (res.filter (fun e => e.type == shapeTypeOf ty)).get? k = some s1 →
          (res.filter (fun e => e.type == shapeTypeOf ty)).get? (k + 1)
            = some s2 →
          arr.startBinding = some ⟨s1.id, 0, 1⟩ ∧
          arr.endBinding = some ⟨s2.id, 0, 1⟩) := by
  obtain ⟨res, s', h1, _, h3, h4, h5, h6, h7⟩ :=
    seq_layout_master s items sx sy ty colors hno hbound hcol
  refine ⟨res, s', h1, h3, h4, ?_, h5, h6, h7⟩
  rw [h4]
  exact List.countP_le_length _

/-- Witness for C6: the concrete two-label run on a fresh agent. -/
theorem seq_layout_counts_witness :
    ∃ res s', create_sequential_layout initAgent ["A", "B"] 50 50
        "rectangle" none = (.ok res, s') ∧
      res.countP (fun e => e.type == shapeTypeOf "rectangle")
        = (["A", "B"] : List String).length ∧
      res.countP (fun e => e.type == "text")
        = (["A", "B"] : List String).countP (fun l => !(l == "")) ∧
      res.countP (fun e => e.type == "text")
        ≤ (["A", "B"] : List String).length ∧
      res.countP (fun e => e.type == "arrow")
        = (["A", "B"] : List String).length - 1 ∧
      ((["A", "B"] : List String) = [] → res = []) ∧
      (∀ k arr, (res.filter (fun e => e.type == "arrow")).get? k = some arr →
        ∀ s1 s2,
          (res.filter (fun e => e.type == shapeTypeOf "rectangle")).get? k
            = some s1 →
          (res.filter (fun e => e.type == shapeTypeOf "rectangle")).get? (k + 1)
            = some s2 →
          arr.startBinding = some ⟨s1.id, 0, 1⟩ ∧
          arr.endBinding = some ⟨s2.id, 0, 1⟩) :=
  seq_layout_counts initAgent ["A", "B"] 50 50 "rectangle" none
    (by simp [initAgent]) (by simp [initAgent]) (by simp)

theorem typesOf_updateFirst (tid : String) (entry : BoundElement)
    (es : List (Option Element)) :
    typesOf (updateFirst tid entry es) = typesOf es := by
  induction es with
  | nil => rfl
  | cons oe rest ih =>
    cases oe with
    | none => simpa [updateFirst, typesOf] using ih
    | some e =>
      rw [updateFirst]
      split
      · simp [typesOf]
      · simpa [typesOf] using ih

theorem typesOf_updateLast (tid : String) (entry : BoundElement)
    (es : List (Option Element)) :
    typesOf (updateLast tid entry es) = typesOf es := by
  unfold updateLast
  have h1 : typesOf (updateFirst tid entry es.reverse).reverse
      = (typesOf (updateFirst tid entry es.reverse)).reverse := by
    simp [typesOf]
  rw [h1, typesOf_updateFirst]
  simp [typesOf]

theorem mem_type_iff_typesOf (es : List (Option Element)) (t : String) :
    (∃ e, some e ∈ es ∧ e.type = t) ↔ some t ∈ typesOf es := by
  constructor
  · rintro ⟨e, he, rfl⟩
    exact List.mem_map.mpr ⟨some e, he, rfl⟩
  · intro h
    obtain ⟨oe, hoe, hmap⟩ := List.mem_map.mp h
    cases oe with
    | none => simp at hmap
    | some e => exact ⟨e, hoe, by simpa using hmap⟩

theorem appGood_nil : appGood [] := by intro oe h; simp at h

theorem appGood_append (l₁ l₂ : List (Option Element)) (h₁ : appGood l₁)
    (h₂ : appGood l₂) : appGood (l₁ ++ l₂) := by
  intro oe h
  rcases List.mem_append.mp h with h | h
  · exact h₁ oe h
  · exact h₂ oe h

theorem appGood_none_not_mem (app : List (Option Element))
    (h : appGood app) : none ∉ app := by
  intro hmem
  obtain ⟨e, he, _⟩ := h none hmem
  cases he

theorem appGood_updateLast (tid : String) (entry : BoundElement)
    (app : List (Option Element)) (h : appGood app) :
    appGood (updateLast tid entry app) := by
  intro oe hmem
  cases oe with
  | none =>
    exfalso
    have := (none_mem_updateLast tid entry app).mp hmem
    exact appGood_none_not_mem app h this
  | some e =>
    have hty : some e.type ∈ typesOf (updateLast tid entry app) :=
      (mem_type_iff_typesOf _ _).mp ⟨e, hmem, rfl⟩
    rw [typesOf_updateLast] at hty
    obtain ⟨e₀, he₀, hty₀⟩ := (mem_type_iff_typesOf _ _).mpr hty
    obtain ⟨e₁, he₁, hgood⟩ := h (some e₀) he₀
    have : e₀ = e₁ := by injection he₁
    subst this
    exact ⟨e, rfl, hty₀ ▸ hgood⟩

theorem routingLoop_spec (dests : List String) :
    ∀ (rcos rsin : ℚ → ℚ) (s : AgentState) (elements : List (Option Element))
      (router : Element) (sx sy astep radius : ℚ) (dcs : List String)
      (i : Nat) (base app₀ : List (Option Element)) (nr : Nat),
    dcs ≠ [] →
    s.elements = base ++ app₀ →
    none ∉ base →
    appGood app₀ →
    (∀ d ∈ dests, d ≠ "") →
    (∃ e, some e ∈ app₀ ∧ e.id = router.id) →
    router.id = mkId "rect" nr →
    nr ≤ s.element_counter →
    ∃ res s' app, routingLoop rcos rsin s elements router sx sy astep radius
        dcs i dests = (.ok res, s') ∧
      s'.elements = base ++ app ∧ appGood app ∧
      s.element_counter ≤ s'.element_counter ∧
      res.length = elements.length + 3 * dests.length := by
  induction dests with
  | nil =>
    intro rcos rsin s elements router sx sy astep radius dcs i base app₀ nr
      hdcs hsel hnb hgood hlab hpres hrid hnr
    exact ⟨elements, s, app₀, rfl, hsel, hgood, le_refl _, by simp⟩
  | cons d rest ih =>
    intro rcos rsin s elements router sx sy astep radius dcs i base app₀ nr
      hdcs hsel hnb hgood hlab hpres hrid hnr
    have hlen : ¬(dcs.length = 0) := by simpa using hdcs
    set Q := create_rectangle s (sx + radius * rcos ((i : ℚ) * astep))
      (sy + radius * rsin ((i : ℚ) * astep)) none none (some d)
      (some (dcs.getD (i % dcs.length) "")) with hQdef
    have hqspec := create_rectangle_spec s
      (sx + radius * rcos ((i : ℚ) * astep))
      (sy + radius * rsin ((i : ℚ) * astep)) none none (some d)
      (some (dcs.getD (i % dcs.length) ""))
    rw [← hQdef] at hqspec
    obtain ⟨te, hte⟩ := create_rectangle_text_some s
      (sx + radius * rcos ((i : ℚ) * astep))
      (sy + radius * rsin ((i : ℚ) * astep)) none none d
      (some (dcs.getD (i % dcs.length) "")) (hlab d (by simp))
    rw [← hQdef] at hte
    have htespec := hqspec.2.2.2.2.2.1 te hte
    -- the state after the two appends
    have hs1el : (add_element (add_element Q.2 (some Q.1.1)) Q.1.2).elements
        = base ++ (app₀ ++ [some Q.1.1, some te]) := by
      rw [hte]
      simp [add_element, hqspec.2.2.1, hsel]
    have hs1cnt : (add_element (add_element Q.2 (some Q.1.1)) Q.1.2).element_counter
        = Q.2.element_counter := rfl
    have hnonone : none ∉ (add_element (add_element Q.2 (some Q.1.1))
        Q.1.2).elements := by
      rw [hs1el]
      intro h
      rcases List.mem_append.mp h with h | h
      · exact hnb h
      · rcases List.mem_append.mp h with h | h
        · exact appGood_none_not_mem app₀ hgood h
        · rcases List.mem_cons.mp h with h | h
          · cases h
          · exact Option.noConfusion (List.mem_singleton.mp h)
    have hrdne : router.id ≠ Q.1.1.id := by
      rw [hrid, hqspec.1]
      intro h
      have := mkId_counter_inj _ _ _ _ h
      omega
    set S1 := add_element (add_element Q.2 (some Q.1.1)) Q.1.2 with hS1def
    obtain ⟨arrow, hrun, harrid, harrty, _, _, _⟩ :=
      create_arrow_ok S1 router.id Q.1.1.id none none "solid" 2 hnonone
        (by rw [hS1def, hs1el]
            obtain ⟨e, he, hid⟩ := hpres
            exact ⟨e, by simp [he], hid⟩)
        (⟨Q.1.1, by rw [hS1def, hs1el]; simp, rfl⟩)
        hrdne
    set ent : BoundElement :=
      ⟨mkId "arrow" (S1.element_counter + 1), "arrow"⟩ with hentdef
    have hS2el : (updateLast Q.1.1.id ent (updateLast router.id ent
        S1.elements))
        = base ++ updateLast Q.1.1.id ent (updateLast router.id ent
            (app₀ ++ [some Q.1.1, some te])) := by
      rw [hS1def, hs1el]
      rw [updateLast_append_of_mem router.id ent base _
        (by obtain ⟨e, he, hid⟩ := hpres
            exact ⟨e, by simp [he], hid⟩)]
      rw [updateLast_append_of_mem Q.1.1.id ent base _
        (by rw [mem_id_updateLast]
            exact ⟨Q.1.1, by simp, rfl⟩)]
    have hgood2 : appGood (updateLast Q.1.1.id ent (updateLast router.id ent
        (app₀ ++ [some Q.1.1, some te]))) := by
      apply appGood_updateLast
      apply appGood_updateLast
      apply appGood_append _ _ hgood
      intro oe hoe
      rcases List.mem_cons.mp hoe with rfl | hoe
      · exact ⟨Q.1.1, rfl, Or.inl hqspec.2.1⟩
      · rcases List.mem_singleton.mp hoe with rfl
        exact ⟨te, rfl, Or.inr (Or.inr htespec.2)⟩
    obtain ⟨res, s', app, hrun2, hels2, hgood3, hcnt2, hlen2⟩ :=
      ih rcos rsin
        { S1 with
          element_counter := S1.element_counter + 1
          elements := updateLast Q.1.1.id ent
            (updateLast router.id ent S1.elements) }
        ((elements ++ [some Q.1.1, Q.1.2]).map
          (Option.map (bindLocal Q.1.1.id ⟨arrow.id, "arrow"⟩ ∘
            bindLocal router.id ⟨arrow.id, "arrow"⟩)) ++ [some arrow])
        router sx sy astep radius dcs (i + 1) base
        (updateLast Q.1.1.id ent (updateLast router.id ent
          (app₀ ++ [some Q.1.1, some te]))) nr hdcs
        hS2el
        hnb hgood2 (fun x hx => hlab x (by simp [hx]))
        (by rw [mem_id_updateLast, mem_id_updateLast]
            obtain ⟨e, he, hid⟩ := hpres
            exact ⟨e, by simp [he], hid⟩)
        hrid
        (by show nr ≤ S1.element_counter + 1
            rw [hS1def, hs1cnt]
            have h1 := hqspec.2.2.2.1
            omega)
    refine ⟨res, s', app, ?_, hels2, hgood3, ?_, ?_⟩
    · simp only [routingLoop]
      rw [if_neg hlen, ← hQdef, ← hS1def, hrun]
      exact hrun2
    · have h1 : S1.element_counter + 1 ≤ s'.element_counter := hcnt2
      have h2 : S1.element_counter = Q.2.element_counter := by
        rw [hS1def, hs1cnt]
      have h3 := hqspec.2.2.2.1
      omega
    · rw [hlen2]
      simp only [List.length_append, List.length_map, List.length_cons,
        List.length_nil]
      omega

theorem routing_layout_appends (rcos rsin : ℚ → ℚ) (piQ : ℚ)
    (s : AgentState) (router_name : String) (dests : List String)
    (sx sy : ℚ) (rc : Option String) (dc : Option (List String))
    (hno : none ∉ s.elements) (hrn : router_name ≠ "")
    (hlabels : ∀ d ∈ dests, d ≠ "") (hdests : dests ≠ [])
    (hdc : dc.getD ["#ffec99"] ≠ []) :
    ∃ res s' app, create_routing_layout rcos rsin piQ s router_name dests
        sx sy rc dc = (.ok res, s') ∧
      s'.elements = s.elements ++ app ∧ appGood app ∧
      res.length = 2 + 3 * dests.length := by
  have hdlen : ¬(dests.length = 0) := by simpa using hdests
  set Q := create_rectangle s sx sy none none (some router_name)
    (some (rc.getD "#a5d8ff")) with hQdef
  have hqspec := create_rectangle_spec s sx sy none none (some router_name)
    (some (rc.getD "#a5d8ff"))
  rw [← hQdef] at hqspec
  obtain ⟨te, hte⟩ := create_rectangle_text_some s sx sy none none
    router_name (some (rc.getD "#a5d8ff")) hrn
  rw [← hQdef] at hte
  have htespec := hqspec.2.2.2.2.2.1 te hte
  set S1 := add_element (add_element Q.2 (some Q.1.1)) Q.1.2 with hS1def
  have hS1el : S1.elements = s.elements ++ [some Q.1.1, some te] := by
    rw [hS1def, hte]
    simp [add_element, hqspec.2.2.1]
  have hS1cnt : S1.element_counter = Q.2.element_counter := by
    rw [hS1def]; rfl
  obtain ⟨res, s', app, hrun, hels, hgood, _, hlen⟩ :=
    routingLoop_spec dests rcos rsin S1 [some Q.1.1, Q.1.2] Q.1.1 sx sy
      (2 * piQ / (dests.length : ℚ)) (default_spacing_x * (3 / 2))
      (dc.getD ["#ffec99"]) 0 s.elements [some Q.1.1, some te]
      (s.element_counter + 1) hdc hS1el hno
      (by intro oe hoe
          rcases List.mem_cons.mp hoe with rfl | hoe
          · exact ⟨Q.1.1, rfl, Or.inl hqspec.2.1⟩
          · rcases List.mem_singleton.mp hoe with rfl
            exact ⟨te, rfl, Or.inr (Or.inr htespec.2)⟩)
      hlabels (⟨Q.1.1, by simp, rfl⟩) hqspec.1
      (by rw [hS1cnt]; exact hqspec.2.2.2.1)
  refine ⟨res, s', app, ?_, hels, hgood, ?_⟩
  · simp only [create_routing_layout]
    rw [← hQdef, ← hS1def, if_neg hdlen]
    exact hrun
  · rw [hlen]
    simp only [List.length_cons, List.length_nil]

theorem parallelLoop_spec (pitems : List String) :
    ∀ (s : AgentState) (elements : List (Option Element))
      (input_elem : Element) (px sy : ℚ) (count : Nat) (cs : List String)
      (i : Nat) (base app₀ : List (Option Element)) (ni : Nat),
    cs ≠ [] →
    s.elements = base ++ app₀ →
    none ∉ base →
    appGood app₀ →
    (∀ d ∈ pitems, d ≠ "") →
    (∃ e, some e ∈ app₀ ∧ e.id = input_elem.id) →
    input_elem.id = mkId "ellipse" ni →
    ni ≤ s.element_counter →
    ∃ res pes s' app,
      parallelLoop s elements input_elem px sy count cs i pitems
        = (.ok (res, pes), s') ∧
      s'.elements = base ++ app ∧ appGood app ∧
      s.element_counter ≤ s'.element_counter ∧
      res.length = elements.length + 3 * pitems.length ∧
      pes.length = pitems.length ∧
      (∀ id', (∃ e, some e ∈ app₀ ∧ e.id = id') →
        (∃ e, some e ∈ app ∧ e.id = id')) ∧
      (∀ pe ∈ pes, ∃ n, pe.id = mkId "rect" n ∧ n ≤ s'.element_counter ∧
        ∃ e, some e ∈ app ∧ e.id = pe.id) := by
  induction pitems with
  | nil =>
    intro s elements input_elem px sy count cs i base app₀ ni hcs hsel hnb
      hgood hlab hpres hiid hni
    exact ⟨elements, [], s, app₀, rfl, hsel, hgood, le_refl _, by simp,
      rfl, fun id' h => h, by simp⟩
  | cons d rest ih =>
    intro s elements input_elem px sy count cs i base app₀ ni hcs hsel hnb
      hgood hlab hpres hiid hni
    have hlen : ¬(cs.length = 0) := by simpa using hcs
    set Q := create_rectangle s px
      (sy + ((i : ℚ) - (count : ℚ) / 2) * default_spacing_y) none none
      (some d) (some (cs.getD (i % cs.length) "")) with hQdef
    have hqspec := create_rectangle_spec s px
      (sy + ((i : ℚ) - (count : ℚ) / 2) * default_spacing_y) none none
      (some d) (some (cs.getD (i % cs.length) ""))
    rw [← hQdef] at hqspec
    obtain ⟨te, hte⟩ := create_rectangle_text_some s px
      (sy + ((i : ℚ) - (count : ℚ) / 2) * default_spacing_y) none none d
      (some (cs.getD (i % cs.length) "")) (hlab d (by simp))
    rw [← hQdef] at hte
    have htespec := hqspec.2.2.2.2.2.1 te hte
    set S1 := add_element (add_element Q.2 (some Q.1.1)) Q.1.2 with hS1def
    have hs1el : S1.elements = base ++ (app₀ ++ [some Q.1.1, some te]) := by
      rw [hS1def, hte]
      simp [add_element, hqspec.2.2.1, hsel]
    have hs1cnt : S1.element_counter = Q.2.element_counter := by
      rw [hS1def]; rfl
    have hnonone : none ∉ S1.elements := by
      rw [hs1el]
      intro h
      rcases List.mem_append.mp h with h | h
      · exact hnb h
      · rcases List.mem_append.mp h with h | h
        · exact appGood_none_not_mem app₀ hgood h
        · rcases List.mem_cons.mp h with h | h
          · cases h
          · exact Option.noConfusion (List.mem_singleton.mp h)
    have hidne : input_elem.id ≠ Q.1.1.id := by
      rw [hiid, hqspec.1]
      intro h
      have := mkId_counter_inj _ _ _ _ h
      omega
    obtain ⟨arrow, hrun, harrid, harrty, _, _, _⟩ :=
      create_arrow_ok S1 input_elem.id Q.1.1.id none none "solid" 2 hnonone
        (by rw [hs1el]
            obtain ⟨e, he, hid⟩ := hpres
            exact ⟨e, by simp [he], hid⟩)
        (⟨Q.1.1, by rw [hs1el]; simp, rfl⟩)
        hidne
    set ent : BoundElement :=
      ⟨mkId "arrow" (S1.element_counter + 1), "arrow"⟩ with hentdef
    have hS2el : (updateLast Q.1.1.id ent (updateLast input_elem.id ent
        S1.elements))
        = base ++ updateLast Q.1.1.id ent (updateLast input_elem.id ent
            (app₀ ++ [some Q.1.1, some te])) := by
      rw [hs1el]
      rw [updateLast_append_of_mem input_elem.id ent base _
        (by obtain ⟨e, he, hid⟩ := hpres
            exact ⟨e, by simp [he], hid⟩)]
      rw [updateLast_append_of_mem Q.1.1.id ent base _
        (by rw [mem_id_updateLast]
            exact ⟨Q.1.1, by simp, rfl⟩)]
    have hgood2 : appGood (updateLast Q.1.1.id ent
        (updateLast input_elem.id ent (app₀ ++ [some Q.1.1, some te]))) := by
      apply appGood_updateLast
      apply appGood_updateLast
      apply appGood_append _ _ hgood
      intro oe hoe
      rcases List.mem_cons.mp hoe with rfl | hoe
      · exact ⟨Q.1.1, rfl, Or.inl hqspec.2.1⟩
      · rcases List.mem_singleton.mp hoe with rfl
        exact ⟨te, rfl, Or.inr (Or.inr htespec.2)⟩
    obtain ⟨res, pes, s', app, hrun2, hels2, hgood3, hcnt2, hlen2, hpeslen,
      hkeep, hpes⟩ :=
      ih { S1 with
            element_counter := S1.element_counter + 1
            elements := updateLast Q.1.1.id ent
              (updateLast input_elem.id ent S1.elements) }
        ((elements ++ [some Q.1.1, Q.1.2]).map
          (Option.map (bindLocal Q.1.1.id ⟨arrow.id, "arrow"⟩ ∘
            bindLocal input_elem.id ⟨arrow.id, "arrow"⟩)) ++ [some arrow])
        input_elem px sy count cs (i + 1) base
        (updateLast Q.1.1.id ent (updateLast input_elem.id ent
          (app₀ ++ [some Q.1.1, some te]))) ni hcs
        hS2el hnb hgood2 (fun x hx => hlab x (by simp [hx]))
        (by rw [mem_id_updateLast, mem_id_updateLast]
            obtain ⟨e, he, hid⟩ := hpres
            exact ⟨e, by simp [he], hid⟩)
        hiid
        (by show ni ≤ S1.element_counter + 1
            rw [hs1cnt]
            have h1 := hqspec.2.2.2.1
            omega)
    refine ⟨res, bindLocal Q.1.1.id ⟨arrow.id, "arrow"⟩ Q.1.1 :: pes, s',
      app, ?_, hels2, hgood3, ?_, ?_, by simp [hpeslen], ?_, ?_⟩
    · simp only [parallelLoop]
      rw [if_neg hlen, ← hQdef, ← hS1def, hrun]
      show (match parallelLoop _ _ input_elem px sy count cs (i + 1) rest with
        | (Except.error e, s3) => (Except.error e, s3)
        | (Except.ok (els, pes), s3) => (Except.ok (els, _ :: pes), s3))
        = _
      rw [hrun2]
    · have h1 : S1.element_counter + 1 ≤ s'.element_counter := hcnt2
      have h3 := hqspec.2.2.2.1
      rw [hs1cnt] at h1
      omega
    · rw [hlen2]
      simp only [List.length_append, List.length_map, List.length_cons,
        List.length_nil]
      omega
    · intro id' hid'
      apply hkeep
      rw [mem_id_updateLast, mem_id_updateLast]
      obtain ⟨e, he, hid⟩ := hid'
      exact ⟨e, by simp [he], hid⟩
    · intro pe hpe
      rcases List.mem_cons.mp hpe with rfl | hpe
      · refine ⟨s.element_counter + 1, ?_, ?_, ?_⟩
        · rw [bindLocal_id, hqspec.1]
        · have h1 : S1.element_counter + 1 ≤ s'.element_counter := hcnt2
          rw [hs1cnt] at h1
          have h3 := hqspec.2.2.2.1
          omega
        · apply hkeep
          rw [mem_id_updateLast, mem_id_updateLast]
          refine ⟨Q.1.1, by simp, ?_⟩
          rw [bindLocal_id]
      · exact hpes pe hpe

theorem parallelOutLoop_spec (pes : List Element) :
    ∀ (s : AgentState) (elements : List (Option Element))
      (output_elem : Element) (base app₀ : List (Option Element)) (no : Nat),
    s.elements = base ++ app₀ →
    none ∉ base →
    appGood app₀ →
    (∃ e, some e ∈ app₀ ∧ e.id = output_elem.id) →
    output_elem.id = mkId "ellipse" no →
    (∀ pe ∈ pes, (∃ n, pe.id = mkId "rect" n) ∧
      (∃ e, some e ∈ app₀ ∧ e.id = pe.id)) →
    ∃ res s' app, parallelOutLoop s elements output_elem pes
        = (.ok res, s') ∧
      s'.elements = base ++ app ∧ appGood app ∧
      res.length = elements.length + pes.length := by
  induction pes with
  | nil =>
    intro s elements output_elem base app₀ no hsel hnb hgood hopres hoid hpes
    exact ⟨elements, s, app₀, rfl, hsel, hgood, by simp⟩
  | cons pe rest ih =>
    intro s elements output_elem base app₀ no hsel hnb hgood hopres hoid hpes
    obtain ⟨⟨n, hpid⟩, hppres⟩ := hpes pe (by simp)
    have hpone : pe.id ≠ output_elem.id := by
      rw [hpid, hoid]
      intro h
      -- a "rect-" id and an "ellipse-" id can only coincide with equal
      -- counters, and then the prefixes would have to agree
      have hc := mkId_counter_inj _ _ _ _ h
      subst hc
      have : ("rect" : String).data ++ '-' :: (natStr n).data
          = ("ellipse" : String).data ++ '-' :: (natStr n).data := by
        have := congrArg String.data h
        simpa [mkId, String.data_append] using this
      have := dashfree_block_eq ("rect" : String).data
        ("ellipse" : String).data _ _ (by decide) (by decide) this
      cases this
    have hnonone : none ∉ s.elements := by
      rw [hsel]
      intro h
      rcases List.mem_append.mp h with h | h
      · exact hnb h
      · exact appGood_none_not_mem app₀ hgood h
    obtain ⟨arrow, hrun, harrid, harrty, _, _, _⟩ :=
      create_arrow_ok s pe.id output_elem.id none none "solid" 2 hnonone
        (by rw [hsel]
            obtain ⟨e, he, hid⟩ := hppres
            exact ⟨e, by simp [he], hid⟩)
        (by rw [hsel]
            obtain ⟨e, he, hid⟩ := hopres
            exact ⟨e, by simp [he], hid⟩)
        hpone
    set ent : BoundElement :=
      ⟨mkId "arrow" (s.element_counter + 1), "arrow"⟩ with hentdef
    have hS2el : (updateLast output_elem.id ent (updateLast pe.id ent
        s.elements))
        = base ++ updateLast output_elem.id ent (updateLast pe.id ent
            app₀) := by
      rw [hsel]
      rw [updateLast_append_of_mem pe.id ent base _ hppres]
      rw [updateLast_append_of_mem output_elem.id ent base _
        (by rw [mem_id_updateLast]; exact hopres)]
    have hgood2 : appGood (updateLast output_elem.id ent
        (updateLast pe.id ent app₀)) :=
      appGood_updateLast _ _ _ (appGood_updateLast _ _ _ hgood)
    obtain ⟨res, s', app, hrun2, hels2, hgood3, hlen2⟩ :=
      ih { s with
            element_counter := s.element_counter + 1
            elements := updateLast output_elem.id ent
              (updateLast pe.id ent s.elements) }
        (elements.map (Option.map
          (bindLocal output_elem.id ⟨arrow.id, "arrow"⟩ ∘
            bindLocal pe.id ⟨arrow.id, "arrow"⟩)) ++ [some arrow])
        output_elem base
        (updateLast output_elem.id ent (updateLast pe.id ent app₀)) no
        hS2el hnb hgood2
        (by rw [mem_id_updateLast, mem_id_updateLast]; exact hopres)
        hoid
        (by intro x hx
            obtain ⟨h1, h2⟩ := hpes x (by simp [hx])
            refine ⟨h1, ?_⟩
            rw [mem_id_updateLast, mem_id_updateLast]
            exact h2)
    refine ⟨res, s', app, ?_, hels2, hgood3, ?_⟩
    · rw [parallelOutLoop]
      rw [hrun]
      exact hrun2
    · rw [hlen2]
      simp only [List.length_append, List.length_map, List.length_cons,
        List.length_nil]
      omega

theorem parallel_layout_appends (s : AgentState) (input_name : String)
    (pitems : List String) (output_name : String) (sx sy : ℚ)
    (cs : Option (List String))
    (hno : none ∉ s.elements) (hin : input_name ≠ "")
    (hout : output_name ≠ "") (hlabels : ∀ d ∈ pitems, d ≠ "")
    (hcs : cs.getD ["#ffec99", "#a5d8ff"] ≠ []) :
    ∃ res s' app, create_parallel_layout s input_name pitems output_name
        sx sy cs = (.ok res, s') ∧
      s'.elements = s.elements ++ app ∧ appGood app ∧
      res.length = 4 + 4 * pitems.length := by
  set Q := create_ellipse s sx sy none none (some input_name)
    (some "transparent") with hQdef
  have hqspec := create_ellipse_spec s sx sy none none (some input_name)
    (some "transparent")
  rw [← hQdef] at hqspec
  obtain ⟨te, hte⟩ := create_ellipse_text_some s sx sy none none
    input_name (some "transparent") hin
  rw [← hQdef] at hte
  have htespec := hqspec.2.2.2.2.2.1 te hte
  set S1 := add_element (add_element Q.2 (some Q.1.1)) Q.1.2 with hS1def
  have hS1el : S1.elements = s.elements ++ [some Q.1.1, some te] := by
    rw [hS1def, hte]
    simp [add_element, hqspec.2.2.1]
  have hS1cnt : S1.element_counter = Q.2.element_counter := by
    rw [hS1def]; rfl
  obtain ⟨res1, pes, s2, app1, hrun1, hels1, hgood1, hcnt1, hlen1, hpeslen,
    _, hpes1⟩ :=
    parallelLoop_spec pitems S1 [some Q.1.1, Q.1.2] Q.1.1
      (sx + default_spacing_x * 2) sy pitems.length
      (cs.getD ["#ffec99", "#a5d8ff"]) 0 s.elements [some Q.1.1, some te]
      (s.element_counter + 1) hcs hS1el hno
      (by intro oe hoe
          rcases List.mem_cons.mp hoe with rfl | hoe
          · exact ⟨Q.1.1, rfl, Or.inr (Or.inl hqspec.2.1)⟩
          · rcases List.mem_singleton.mp hoe with rfl
            exact ⟨te, rfl, Or.inr (Or.inr htespec.2)⟩)
      hlabels (⟨Q.1.1, by simp, rfl⟩) hqspec.1
      (by rw [hS1cnt]; exact hqspec.2.2.2.1)
  -- the output ellipse
  set Q2 := create_ellipse s2 (sx + default_spacing_x * 2
      + default_spacing_x * 2) sy none none (some output_name)
    (some "transparent") with hQ2def
  have hq2spec := create_ellipse_spec s2 (sx + default_spacing_x * 2
      + default_spacing_x * 2) sy none none (some output_name)
    (some "transparent")
  rw [← hQ2def] at hq2spec
  obtain ⟨te2, hte2⟩ := create_ellipse_text_some s2
    (sx + default_spacing_x * 2 + default_spacing_x * 2) sy none none
    output_name (some "transparent") hout
  rw [← hQ2def] at hte2
  have hte2spec := hq2spec.2.2.2.2.2.1 te2 hte2
  set S3 := add_element (add_element Q2.2 (some Q2.1.1)) Q2.1.2 with hS3def
  have hS3el : S3.elements = s.elements
      ++ (app1 ++ [some Q2.1.1, some te2]) := by
    rw [hS3def, hte2]
    simp [add_element, hq2spec.2.2.1, hels1]
  obtain ⟨res, s', app, hrun2, hels2, hgood2, hlen2⟩ :=
    parallelOutLoop_spec pes S3 (res1 ++ [some Q2.1.1, Q2.1.2]) Q2.1.1
      s.elements (app1 ++ [some Q2.1.1, some te2])
      (s2.element_counter + 1) hS3el hno
      (by apply appGood_append _ _ hgood1
          intro oe hoe
          rcases List.mem_cons.mp hoe with rfl | hoe
          · exact ⟨Q2.1.1, rfl, Or.inr (Or.inl hq2spec.2.1)⟩
          · rcases List.mem_singleton.mp hoe with rfl
            exact ⟨te2, rfl, Or.inr (Or.inr hte2spec.2)⟩)
      (⟨Q2.1.1, by simp, rfl⟩) hq2spec.1
      (by intro pe hpe
          obtain ⟨n, h1, h2, h3⟩ := hpes1 pe hpe
          refine ⟨⟨n, h1⟩, ?_⟩
          obtain ⟨e, he, hid⟩ := h3
          exact ⟨e, by simp [he], hid⟩)
  refine ⟨res, s', app, ?_, hels2, hgood2, ?_⟩
  · simp only [create_parallel_layout]
    rw [← hQdef, ← hS1def, hrun1]
    show parallelOutLoop
        (add_element (add_element (create_ellipse s2
          (sx + default_spacing_x * 2 + default_spacing_x * 2) sy none
          none (some output_name) (some "transparent")).2
          (some (create_ellipse s2 (sx + default_spacing_x * 2
            + default_spacing_x * 2) sy none none (some output_name)
            (some "transparent")).1.1))
          (create_ellipse s2 (sx + default_spacing_x * 2
            + default_spacing_x * 2) sy none none (some output_name)
            (some "transparent")).1.2)
        (res1 ++ [some (create_ellipse s2 (sx + default_spacing_x * 2
          + default_spacing_x * 2) sy none none (some output_name)
          (some "transparent")).1.1,
          (create_ellipse s2 (sx + default_spacing_x * 2
            + default_spacing_x * 2) sy none none (some output_name)
            (some "transparent")).1.2])
        (create_ellipse s2 (sx + default_spacing_x * 2
          + default_spacing_x * 2) sy none none (some output_name)
          (some "transparent")).1.1
        pes = (Except.ok res, s')
    rw [← hQ2def, ← hS3def]
    exact hrun2
  · rw [hlen2]
    simp only [List.length_append, List.length_cons, List.length_nil]
    rw [hlen1, hpeslen]
    simp only [List.length_cons, List.length_nil]
    omega

/-- C1 (amended): each layout call returns every produced element in
creation order; the routing and parallel layouts append the produced
shapes and label texts — but no arrows — to the document's element list
as a side effect (`appGood`: every appended entry is a shape or a text);
the sequential layout appends nothing at all to the document (its shapes
are added only temporarily during arrow creation and removed again). -/
theorem layout_append_behavior :
    (∀ (s : AgentState) (items : List String) (sx sy : ℚ) (ty : String)
      (colors : Option (List String)),
      none ∉ s.elements →
      (∀ e, some e ∈ s.elements → ∀ p n, e.id = mkId p n →
        n ≤ s.element_counter) →
      colors.getD ["#ffec99"] ≠ [] →
      ∃ res s', create_sequential_layout s items sx sy ty colors
          = (.ok res, s') ∧ s'.elements = s.elements) ∧
    (∀ (rcos rsin : ℚ → ℚ) (piQ : ℚ) (s : AgentState)
      (router_name : String) (dests : List String) (sx sy : ℚ)
      (rc : Option String) (dc : Option (List String)),
      none ∉ s.elements → router_name ≠ "" → (∀ d ∈ dests, d ≠ "") →
      dests ≠ [] → dc.getD ["#ffec99"] ≠ [] →
      ∃ res s' app, create_routing_layout rcos rsin piQ s router_name dests
          sx sy rc dc = (.ok res, s') ∧
        s'.elements = s.elements ++ app ∧ appGood app ∧
        res.length = 2 + 3 * dests.length) ∧
    (∀ (s : AgentState) (input_name : String) (pitems : List String)
      (output_name : String) (sx sy : ℚ) (cs : Option (List String)),
      none ∉ s.elements → input_name ≠ "" → output_name ≠ "" →
      (∀ d ∈ pitems, d ≠ "") → cs.getD ["#ffec99", "#a5d8ff"] ≠ [] →
      ∃ res s' app, create_parallel_layout s input_name pitems output_name
          sx sy cs = (.ok res, s') ∧
        s'.elements = s.elements ++ app ∧ appGood app ∧
        res.length = 4 + 4 * pitems.length) := by
  refine ⟨?_, ?_, ?_⟩
  · intro s items sx sy ty colors hno hbound hcol
    obtain ⟨res, s', h1, h2, _⟩ :=
      seq_layout_master s items sx sy ty colors hno hbound hcol
    exact ⟨res, s', h1, h2⟩
  · intro rcos rsin piQ s rn dests sx sy rc dc hno hrn hlab hd hdc
    exact routing_layout_appends rcos rsin piQ s rn dests sx sy rc dc
      hno hrn hlab hd hdc
  · intro s inn pitems outn sx sy cs hno hin hout hlab hcs
    exact parallel_layout_appends s inn pitems outn sx sy cs
      hno hin hout hlab hcs

/-- Witness for C1 (amended): the three layouts on fresh agents and
concrete inputs. -/
theorem layout_append_behavior_witness :
    (∃ res s', create_sequential_layout initAgent ["A", "B"] 50 50
        "rectangle" none = (.ok res, s') ∧ s'.elements = initAgent.elements) ∧
    (∃ res s' app, create_routing_layout (fun _ => 1) (fun _ => 0) 3
        initAgent "R" ["D1"] 50 150 none none = (.ok res, s') ∧
      s'.elements = initAgent.elements ++ app ∧ appGood app ∧
      res.length = 2 + 3 * (["D1"] : List String).length) ∧
    (∃ res s' app, create_parallel_layout initAgent "In" ["P1"] "Out"
        50 300 none = (.ok res, s') ∧
      s'.elements = initAgent.elements ++ app ∧ appGood app ∧
      res.length = 4 + 4 * (["P1"] : List String).length) :=
  ⟨layout_append_behavior.1 initAgent ["A", "B"] 50 50 "rectangle" none
      (by simp [initAgent]) (by simp [initAgent]) (by simp),
   layout_append_behavior.2.1 (fun _ => 1) (fun _ => 0) 3 initAgent "R"
      ["D1"] 50 150 none none (by simp [initAgent]) (by simp)
      (by simp) (by simp) (by simp),
   layout_append_behavior.2.2 initAgent "In" ["P1"] "Out" 50 300 none
      (by simp [initAgent]) (by simp) (by simp) (by simp) (by simp)⟩

end Excalidraw
